import Mathlib

/-!
Verification of the mapcli daemon's coordination engine against its
natural-language specification.  The Go source (package `daemon`) is shallowly
embedded: machine state is passed explicitly, the SQLite store is modelled at
two levels (a record-level view for the router and poller, and a column-level
view for the migration and scan claims), timestamps are Unix seconds as the
store persists them, and calls to external tools (tmux, gh) are modelled by
explicit success flags and by returning the list of commands that would be
issued.  Goroutines spawned by a function are not executed inside it: the
sequential semantics of a call covers exactly the statements the call itself
runs, which is one legal interleaving of the concurrent program.
-/

namespace Mapcli

/-! ## Go string helpers

`replaceList` is `strings.ReplaceAll`: it replaces non-overlapping occurrences
of the pattern left to right in a single pass. -/

/-- Fuel-driven worker for `strings.ReplaceAll` (the fuel makes the
recursion structural; it never runs out when primed with the input
length). -/
def replaceListF (pat rep : List Char) : Nat → List Char → List Char
  | _, [] => []
  | 0, l => l
  | fuel + 1, c :: rest =>
    if pat ≠ [] ∧ pat.isPrefixOf (c :: rest) then
      rep ++ replaceListF pat rep fuel ((c :: rest).drop pat.length)
    else
      c :: replaceListF pat rep fuel rest

/-- One pass of Go `strings.ReplaceAll` over the character list, replacing
leftmost non-overlapping occurrences of `pat` by `rep`. -/
def replaceList (pat rep : List Char) (l : List Char) : List Char :=
  replaceListF pat rep l.length l

/-- The worker ignores the exact amount of fuel once it covers the input. -/
theorem replaceListF_irrel (pat rep : List Char) :
    ∀ (f : Nat) (l : List Char) (g : Nat), l.length ≤ f → l.length ≤ g →
      replaceListF pat rep f l = replaceListF pat rep g l := by
  intro f
  induction f with
  | zero =>
    intro l g hf _
    have : l = [] := List.length_eq_zero.mp (Nat.le_zero.mp hf)
    subst this
    cases g <;> rfl
  | succ n ih =>
    intro l g hf hg
    cases l with
    | nil => cases g <;> rfl
    | cons c rest =>
      cases g with
      | zero => simp at hg
      | succ m =>
        simp only [replaceListF]
        by_cases hmatch1 : pat ≠ [] ∧ pat.isPrefixOf (c :: rest)
        · simp only [if_pos hmatch1]
          have hpat : 0 < pat.length := List.length_pos.mpr hmatch1.1
          have hdrop : ((c :: rest).drop pat.length).length ≤ n := by
            simp only [List.length_drop, List.length_cons]
            simp only [List.length_cons] at hf
            omega
          have hdrop2 : ((c :: rest).drop pat.length).length ≤ m := by
            simp only [List.length_drop, List.length_cons]
            simp only [List.length_cons] at hg
            omega
          rw [ih _ m hdrop hdrop2]
        · simp only [if_neg hmatch1]
          have h1 : rest.length ≤ n := by simp only [List.length_cons] at hf; omega
          have h2 : rest.length ≤ m := by simp only [List.length_cons] at hg; omega
          rw [ih _ m h1 h2]

/-- `replaceList` on the empty list. -/
theorem replaceList_nil (pat rep : List Char) : replaceList pat rep [] = [] := rfl

/-- Unfolding equation for `replaceList` on a cons cell. -/
theorem replaceList_cons (pat rep : List Char) (c : Char) (rest : List Char) :
    replaceList pat rep (c :: rest) =
      if pat ≠ [] ∧ pat.isPrefixOf (c :: rest) then
        rep ++ replaceList pat rep ((c :: rest).drop pat.length)
      else
        c :: replaceList pat rep rest := by
  show replaceListF pat rep (rest.length + 1) (c :: rest) = _
  simp only [replaceListF]
  by_cases hmatch1 : pat ≠ [] ∧ pat.isPrefixOf (c :: rest)
  · simp only [if_pos hmatch1]
    congr 1
    apply replaceListF_irrel
    · have hpat : 0 < pat.length := List.length_pos.mpr hmatch1.1
      simp only [List.length_drop, List.length_cons]
      omega
    · exact Nat.le_refl _
  · simp only [if_neg hmatch1]
    rfl

/-- Go `strings.ReplaceAll` on strings. -/
def goReplaceAll (s pat rep : String) : String :=
  ⟨replaceList pat.data rep.data s.data⟩

/-- Go `strings.HasPrefix`. -/
def strStartsWith (s pre : String) : Bool :=
  pre.data.isPrefixOf s.data

/-- Go `strings.Join` (same as `String.intercalate`). -/
def goJoin (elems : List String) (sep : String) : String :=
  String.intercalate sep elems

/-! ## Data model (store.go `TaskRecord`, process manager `AgentSlot`)

Timestamps are the Unix-second integers the store persists (`time.Time` values
are written with `.Unix()` and read back with `time.Unix`, so second precision
is exact); the zero time is `0`. -/

/-- `TaskRecord` from store.go. -/
structure TaskRecord where
  taskID : String
  description : String
  scopePaths : List String
  status : String
  assignedTo : String
  result : String
  error : String
  createdAt : Nat
  updatedAt : Nat
  githubOwner : String
  githubRepo : String
  githubIssueNumber : Int
  lastCommentID : String
  waitingInputQuestion : String
  waitingInputSince : Nat
deriving DecidableEq, Repr

/-- `AgentSlot` from the process manager. -/
structure AgentSlot where
  agentID : String
  worktreePath : String
  tmuxSession : String
  status : String
  currentTask : String
  agentType : String
deriving DecidableEq, Repr

/-- `ProcessManager` observable state: the live slot map (keyed by `agentID`)
and the round-robin cursor `lastAssigned`. -/
structure PMState where
  agents : List AgentSlot
  lastAssigned : String
deriving DecidableEq, Repr

/-- Event types the router and poller emit (mapv1.EventType). -/
inductive EventType
  | taskCreated
  | taskStarted
  | taskFailed
  | taskCancelled
  | taskCompleted
  | taskInputReceived
deriving DecidableEq, Repr

/-- A task event as built by `emitTaskEvent` and the poller's emitters.  The
send on the event channel is non-blocking (a full channel drops the event);
we record the events offered to the channel. -/
structure TaskEvent where
  eventType : EventType
  taskId : String
  newStatus : String
  agentId : String
deriving DecidableEq, Repr

/-- Commands issued to tmux by dispatch and reply delivery. -/
inductive TmuxAction
  | sendText (session text : String)
  | sendEnter (session : String)
  | sleepMs (n : Nat)
deriving DecidableEq, Repr

/-! ## Record-level store operations

The router and poller use the store through these operations; we model the
tasks table by its list of records.  `UPDATE ... WHERE task_id = ?` touches
every row with that key and never touches `created_at`. -/

/-- `Store.GetTask`: the row with the given primary key (no row is `nil, nil`;
modelled `none`). -/
def storeGetTask (st : List TaskRecord) (id : String) : Option TaskRecord :=
  st.find? (fun r => r.taskID = id)

/-- `Store.UpdateTask`: rewrite every column except `created_at` on the rows
whose `task_id` matches. -/
def storeUpdateTask (st : List TaskRecord) (t : TaskRecord) : List TaskRecord :=
  st.map (fun r => if r.taskID = t.taskID then { t with createdAt := r.createdAt } else r)

/-- `Store.UpdateTaskStatus`: set `status` and `updated_at`. -/
def storeUpdateTaskStatus (st : List TaskRecord) (id status : String) (now : Nat) :
    List TaskRecord :=
  st.map (fun r => if r.taskID = id then { r with status := status, updatedAt := now } else r)

/-- `Store.AssignTask`: set `assigned_to`, status `accepted`, `updated_at`. -/
def storeAssignTask (st : List TaskRecord) (id instanceID : String) (now : Nat) :
    List TaskRecord :=
  st.map (fun r =>
    if r.taskID = id then
      { r with assignedTo := instanceID, status := "accepted", updatedAt := now }
    else r)

/-- `Store.ClearTaskWaitingInput`: status back to `in_progress`, clear the
question and waiting-since, record the last comment id. -/
def storeClearTaskWaitingInput (st : List TaskRecord) (id lastCommentID : String) (now : Nat) :
    List TaskRecord :=
  st.map (fun r =>
    if r.taskID = id then
      { r with status := "in_progress", waitingInputQuestion := "",
               waitingInputSince := 0, lastCommentID := lastCommentID, updatedAt := now }
    else r)

/-- Insert into a list sorted by `created_at` descending (`ORDER BY created_at
DESC`; SQL leaves the order of equal keys unspecified, this model keeps input
order for ties). -/
def insertByCreatedDesc (t : TaskRecord) : List TaskRecord → List TaskRecord
  | [] => [t]
  | x :: xs =>
    if x.createdAt < t.createdAt then t :: x :: xs else x :: insertByCreatedDesc t xs

/-- Sort by `created_at` descending. -/
def sortByCreatedDesc : List TaskRecord → List TaskRecord
  | [] => []
  | t :: ts => insertByCreatedDesc t (sortByCreatedDesc ts)

/-- `Store.ListTasks`: filter by status and assignee when non-empty, order by
creation time descending, apply `LIMIT` when positive. -/
def storeListTasks (st : List TaskRecord) (statusFilter agentFilter : String) (limit : Nat) :
    List TaskRecord :=
  let rows := st.filter (fun r =>
    (statusFilter = "" ∨ r.status = statusFilter) ∧
    (agentFilter = "" ∨ r.assignedTo = agentFilter))
  let sorted := sortByCreatedDesc rows
  if limit > 0 then sorted.take limit else sorted

/-- Projection of an error result's message. -/
def exceptErrMsg {α : Type} : Except String α → Option String
  | .error m => some m
  | .ok _ => none

/-! ## TaskRouter.CancelTask (part_005 lines 190-217)

The Go code loads the task (`nil` row means a distinct not-found error),
admits only the statuses `pending` and `in_progress` (the `switch` default
rejects every other status, terminal or not), then writes status `cancelled`
with a fresh `updated_at` and emits a cancelled event built from the proto
conversion (new status cancelled, agent id the task's assignee). -/

/-- `TaskRouter.CancelTask`, returning the new store contents, the returned
task, and the events offered to the channel. -/
def cancelTask (st : List TaskRecord) (now : Nat) (taskID : String) :
    Except String (List TaskRecord × TaskRecord × List TaskEvent) :=
  match storeGetTask st taskID with
  | none => .error ("task not found: " ++ taskID)
  | some task =>
    if task.status = "pending" ∨ task.status = "in_progress" then
      let t := { task with status := "cancelled", updatedAt := now }
      .ok (storeUpdateTask st t, t,
           [⟨.taskCancelled, t.taskID, "cancelled", t.assignedTo⟩])
    else
      .error ("cannot cancel task in status: " ++ task.status)

/-- Reading back the key just rewritten by `storeUpdateTask` yields the new
record (with the old row's `created_at`, which `UPDATE` does not touch). -/
theorem storeGetTask_updateTask (st : List TaskRecord) (t t' : TaskRecord)
    (hfind : storeGetTask st t'.taskID = some t) :
    storeGetTask (storeUpdateTask st t') t'.taskID =
      some { t' with createdAt := t.createdAt } := by
  induction st with
  | nil => simp [storeGetTask] at hfind
  | cons r rs ih =>
    by_cases hr : r.taskID = t'.taskID
    · have hrt : r = t := by
        simpa [storeGetTask, List.find?_cons_of_pos, hr] using hfind
      subst hrt
      simp [storeGetTask, storeUpdateTask, List.find?_cons_of_pos, hr]
    · have hfind' : storeGetTask rs t'.taskID = some t := by
        simpa [storeGetTask, List.find?_cons_of_neg, hr] using hfind
      have := ih hfind'
      simpa [storeGetTask, storeUpdateTask, List.find?_cons_of_neg, hr] using this

/-- A task in the non-terminal status `waiting_input`. -/
def c1WaitingTask : TaskRecord :=
  { taskID := "t1", description := "d", scopePaths := [], status := "waiting_input",
    assignedTo := "a1", result := "", error := "", createdAt := 1, updatedAt := 1,
    githubOwner := "acme", githubRepo := "api", githubIssueNumber := 42,
    lastCommentID := "", waitingInputQuestion := "q", waitingInputSince := 1 }

/-- A task in status `pending`. -/
def c1PendingTask : TaskRecord :=
  { taskID := "t2", description := "d", scopePaths := [], status := "pending",
    assignedTo := "", result := "", error := "", createdAt := 1, updatedAt := 1,
    githubOwner := "", githubRepo := "", githubIssueNumber := 0,
    lastCommentID := "", waitingInputQuestion := "", waitingInputSince := 0 }

/-- A task in the terminal status `completed`. -/
def c1CompletedTask : TaskRecord :=
  { taskID := "t3", description := "d", scopePaths := [], status := "completed",
    assignedTo := "a1", result := "", error := "", createdAt := 1, updatedAt := 1,
    githubOwner := "", githubRepo := "", githubIssueNumber := 0,
    lastCommentID := "", waitingInputQuestion := "", waitingInputSince := 0 }

/-- C1 counterexample: `waiting_input` is not terminal (it is none of
`completed`, `failed`, `cancelled`), yet `CancelTask` on a stored
`waiting_input` task fails with the invalid-state error instead of
succeeding as the claim requires. -/
theorem cancelTask_claim_counterexample :
    (storeGetTask [c1WaitingTask] "t1").map (fun t => t.status) = some "waiting_input" ∧
    "waiting_input" ≠ "completed" ∧ "waiting_input" ≠ "failed" ∧
    "waiting_input" ≠ "cancelled" ∧
    exceptErrMsg (cancelTask [c1WaitingTask] 5 "t1") =
      some "cannot cancel task in status: waiting_input" := by
  decide

/-- C1 (amended): `CancelTask` fails when the task does not exist or its
status is anything other than `pending` or `in_progress` — so not only for
the terminal statuses but also for `offered`, `accepted` and `waiting_input`.
For a stored task in `pending` or `in_progress` it succeeds, sets the status
to `cancelled`, sets the updated-timestamp to the current time, and emits a
cancelled event carrying the task id and its assignee. -/
theorem cancelTask_corrected (st : List TaskRecord) (now : Nat) (id : String) :
    (storeGetTask st id = none →
      cancelTask st now id = .error ("task not found: " ++ id)) ∧
    (∀ t, storeGetTask st id = some t →
      ((t.status = "pending" ∨ t.status = "in_progress") →
        ∃ st' t' evs, cancelTask st now id = .ok (st', t', evs) ∧
          t'.status = "cancelled" ∧ t'.updatedAt = now ∧
          t'.taskID = t.taskID ∧ t'.assignedTo = t.assignedTo ∧
          storeGetTask st' id = some t' ∧
          evs = [⟨.taskCancelled, t.taskID, "cancelled", t.assignedTo⟩]) ∧
      (t.status ≠ "pending" → t.status ≠ "in_progress" →
        cancelTask st now id = .error ("cannot cancel task in status: " ++ t.status))) := by
  refine ⟨fun hnone => ?_, fun t hfind => ⟨fun hok => ?_, fun h1 h2 => ?_⟩⟩
  · simp [cancelTask, hnone]
  · have hid : t.taskID = id := by
      have := List.find?_some hfind
      simpa using this
    refine ⟨storeUpdateTask st { t with status := "cancelled", updatedAt := now },
      { t with status := "cancelled", updatedAt := now },
      [⟨.taskCancelled, t.taskID, "cancelled", t.assignedTo⟩], ?_, rfl, rfl, rfl, rfl, ?_, rfl⟩
    · simp [cancelTask, hfind, hok]
    · have hfind' : storeGetTask st
          (TaskRecord.taskID { t with status := "cancelled", updatedAt := now }) = some t := by
        simpa [hid] using hfind
      have := storeGetTask_updateTask st t
        { t with status := "cancelled", updatedAt := now } hfind'
      have heq : ({ { t with status := "cancelled", updatedAt := now }
          with createdAt := t.createdAt } : TaskRecord) =
          { t with status := "cancelled", updatedAt := now } := by
        cases t; rfl
      rw [heq] at this
      simpa [hid] using this
  · have : ¬ (t.status = "pending" ∨ t.status = "in_progress") := by
      rintro (h | h) <;> [exact h1 h; exact h2 h]
    simp [cancelTask, hfind, this]

/-- C1 witness: the amended theorem applied to concrete stores — a missing
id, a `pending` task (success), and a `completed` task (failure). -/
theorem cancelTask_corrected_witness :
    cancelTask [] 5 "nope" = .error ("task not found: " ++ "nope") ∧
    (∃ st' t' evs, cancelTask [c1PendingTask] 7 "t2" = .ok (st', t', evs) ∧
      t'.status = "cancelled" ∧ t'.updatedAt = 7 ∧
      t'.taskID = c1PendingTask.taskID ∧ t'.assignedTo = c1PendingTask.assignedTo ∧
      storeGetTask st' "t2" = some t' ∧
      evs = [⟨.taskCancelled, c1PendingTask.taskID, "cancelled", c1PendingTask.assignedTo⟩]) ∧
    cancelTask [c1CompletedTask] 7 "t3" =
      .error ("cannot cancel task in status: " ++ c1CompletedTask.status) := by
  refine ⟨(cancelTask_corrected [] 5 "nope").1 (by decide), ?_, ?_⟩
  · exact ((cancelTask_corrected [c1PendingTask] 7 "t2").2 c1PendingTask (by decide)).1
      (Or.inl rfl)
  · exact ((cancelTask_corrected [c1CompletedTask] 7 "t3").2 c1CompletedTask (by decide)).2
      (by decide) (by decide)

/-! ## ProcessManager (part_006)

`FindAvailableAgent` sorts the map keys (`sort.Strings`, lexicographic on the
byte sequence, which on UTF-8 agrees with comparing code points), starts just
after `lastAssigned`, and scans with a modular index.  It takes each visited
slot's per-slot lock in turn; we instrument the embedding with the list of
slot ids locked, which the empty-pool early return leaves empty. -/

/-- Lexicographic order on character lists (Go `sort.Strings` comparison). -/
def charListLe : List Char → List Char → Bool
  | [], _ => true
  | _ :: _, [] => false
  | a :: as, b :: bs => if a < b then true else if a = b then charListLe as bs else false

/-- Insert into a lexicographically sorted list of strings. -/
def sortStringsInsert (x : String) : List String → List String
  | [] => [x]
  | y :: ys => if charListLe x.data y.data then x :: y :: ys else y :: sortStringsInsert x ys

/-- Sort strings lexicographically (`sort.Strings`). -/
def sortStrings (l : List String) : List String := l.foldr sortStringsInsert []

/-- Go map lookup in the slot map. -/
def lookupSlot (agents : List AgentSlot) (id : String) : Option AgentSlot :=
  agents.find? (fun s => s.agentID = id)

/-- Starting index: one past the first occurrence of `lastAssigned` in `ids`,
wrapping; 0 when `lastAssigned` is empty or absent. -/
def findAvailStartIdx (ids : List String) (lastAssigned : String) : Nat :=
  if lastAssigned = "" then 0
  else
    match ids.findIdx? (fun x => x = lastAssigned) with
    | some i => (i + 1) % ids.length
    | none => 0

/-- The sequence of ids the scan loop visits: `ids[(startIdx+i) % len]` for
`i = 0 .. len-1`. -/
def visitNames (ids : List String) (startIdx : Nat) : List String :=
  (List.range ids.length).map (fun i => ids.getD ((startIdx + i) % ids.length) "")

/-- Scan the visited ids: lock each slot in turn, return the first whose
status is `idle`.  Returns the picked slot and the ids locked (a name absent
from the map is skipped; it cannot occur, the names are the map's keys). -/
def scanNames (agents : List AgentSlot) : List String → Option AgentSlot × List String
  | [] => (none, [])
  | n :: rest =>
    match lookupSlot agents n with
    | none => scanNames agents rest
    | some slot =>
      if slot.status = "idle" then (some slot, [n])
      else
        let r := scanNames agents rest
        (r.1, n :: r.2)

/-- `ProcessManager.FindAvailableAgent`: result slot, new state (with
`lastAssigned` recorded on success), and the per-slot locks taken. -/
def findAvailableAgent (pm : PMState) : Option AgentSlot × PMState × List String :=
  if pm.agents.isEmpty then (none, pm, [])
  else
    let ids := sortStrings (pm.agents.map (fun s => s.agentID))
    let start := findAvailStartIdx ids pm.lastAssigned
    let r := scanNames pm.agents (visitNames ids start)
    match r.1 with
    | some slot => (some slot, { pm with lastAssigned := slot.agentID }, r.2)
    | none => (none, pm, r.2)

/-- Stated from the claim's words: the sorted ids rotated to start just after
the last-assigned identifier, wrapping around. -/
def rotateAfterLast (ids : List String) (lastAssigned : String) : List String :=
  if lastAssigned = "" then ids
  else
    match ids.findIdx? (fun x => x = lastAssigned) with
    | some i => ids.drop (i + 1) ++ ids.take (i + 1)
    | none => ids

/-- Whether the slot registered under a name is idle. -/
def isIdleName (agents : List AgentSlot) (n : String) : Bool :=
  match lookupSlot agents n with
  | some s => s.status = "idle"
  | none => false

/-- Stated from the claim's words: the first idle slot in lexicographic order
starting just after the last-assigned identifier. -/
def roundRobinSpecPick (pm : PMState) : Option String :=
  (rotateAfterLast (sortStrings (pm.agents.map (fun s => s.agentID))) pm.lastAssigned).find?
    (isIdleName pm.agents)

/-- The modular scan sequence starting at `s** is the rotation of the id list
by `s`. -/
theorem visitNames_eq_rotate (ids : List String) (s : Nat) (hs : s < ids.length) :
    visitNames ids s = ids.drop s ++ ids.take s := by
  have hlen : (visitNames ids s).length = ids.length := by
    simp [visitNames]
  apply List.ext_getElem
  · simp [visitNames]
    omega
  · intro i h1 h2
    have hi : i < ids.length := by
      simpa [visitNames] using h1
    have hvisit : (visitNames ids s)[i] = ids.getD ((s + i) % ids.length) "" := by
      simp [visitNames]
    rw [hvisit]
    by_cases hcase : i < ids.length - s
    · have hlt : s + i < ids.length := by omega
      have hmod : (s + i) % ids.length = s + i := Nat.mod_eq_of_lt hlt
      rw [hmod, List.getD_eq_getElem ids "" hlt]
      have hdl : i < (ids.drop s).length := by simp; omega
      rw [List.getElem_append_left hdl]
      simp [List.getElem_drop]
    · have hge : ids.length ≤ s + i := by omega
      have hlt2 : s + i < 2 * ids.length := by omega
      have hmod : (s + i) % ids.length = s + i - ids.length := by
        rw [Nat.mod_eq_sub_mod hge]
        exact Nat.mod_eq_of_lt (by omega)
      have hlt3 : s + i - ids.length < ids.length := by omega
      rw [hmod, List.getD_eq_getElem ids "" hlt3]
      have hdl : (ids.drop s).length ≤ i := by simp; omega
      rw [List.getElem_append_right hdl]
      have htk : i - (ids.drop s).length < (ids.take s).length := by simp; omega
      rw [List.getElem_take]
      congr 1
      simp
      omega

/-- The rotation described by the claim equals the modular scan sequence the
code visits. -/
theorem rotateAfterLast_eq_visitNames (ids : List String) (la : String) (hne : ids ≠ []) :
    rotateAfterLast ids la = visitNames ids (findAvailStartIdx ids la) := by
  have hlen : 0 < ids.length := List.length_pos.mpr hne
  by_cases hla : la = ""
  · have h1 : rotateAfterLast ids la = ids := by simp [rotateAfterLast, hla]
    have h2 : findAvailStartIdx ids la = 0 := by simp [findAvailStartIdx, hla]
    rw [h1, h2, visitNames_eq_rotate ids 0 hlen]
    simp
  · cases hidx : ids.findIdx? (fun x => x = la) with
    | none =>
      have h1 : rotateAfterLast ids la = ids := by simp [rotateAfterLast, hla, hidx]
      have h2 : findAvailStartIdx ids la = 0 := by simp [findAvailStartIdx, hla, hidx]
      rw [h1, h2, visitNames_eq_rotate ids 0 hlen]
      simp
    | some i =>
      have h1 : rotateAfterLast ids la = ids.drop (i + 1) ++ ids.take (i + 1) := by
        simp [rotateAfterLast, hla, hidx]
      have h2 : findAvailStartIdx ids la = (i + 1) % ids.length := by
        simp [findAvailStartIdx, hla, hidx]
      have hi : i < ids.length := by
        have := List.findIdx?_eq_some_iff_findIdx_eq.mp hidx
        exact this.1
      rw [h1, h2]
      by_cases hcase : i + 1 < ids.length
      · rw [Nat.mod_eq_of_lt hcase, visitNames_eq_rotate ids (i + 1) hcase]
      · have heq : i + 1 = ids.length := by omega
        have hmod : (i + 1) % ids.length = 0 := by
          rw [heq]; exact Nat.mod_self _
        rw [hmod, visitNames_eq_rotate ids 0 hlen, heq]
        simp

/-- Sorting preserves the number of ids. -/
theorem length_sortStringsInsert (x : String) (l : List String) :
    (sortStringsInsert x l).length = l.length + 1 := by
  induction l with
  | nil => rfl
  | cons y ys ih =>
    by_cases hc : charListLe x.data y.data
    · simp [sortStringsInsert, hc]
    · simp [sortStringsInsert, hc, ih]

/-- Sorting preserves the number of ids. -/
theorem length_sortStrings (l : List String) : (sortStrings l).length = l.length := by
  induction l with
  | nil => rfl
  | cons y ys ih => simp [sortStrings, List.foldr, length_sortStringsInsert, ← ih]

/-- The slot picked by the scan is the first name that resolves to an idle
slot. -/
theorem scanNames_fst_eq_find (agents : List AgentSlot) (names : List String) :
    ((scanNames agents names).1).map (fun s => s.agentID) =
      names.find? (isIdleName agents) := by
  induction names with
  | nil => rfl
  | cons n rest ih =>
    cases hl : lookupSlot agents n with
    | none =>
      have hfalse : isIdleName agents n = false := by simp [isIdleName, hl]
      simp [scanNames, hl, List.find?_cons_of_neg, hfalse, ih]
    | some slot =>
      have hid : slot.agentID = n := by
        have := List.find?_some hl
        simpa using this
      by_cases hs : slot.status = "idle"
      · have htrue : isIdleName agents n = true := by simp [isIdleName, hl, hs]
        simp [scanNames, hl, hs, List.find?_cons_of_pos, htrue, hid]
      · have hfalse : isIdleName agents n = false := by simp [isIdleName, hl, hs]
        simp [scanNames, hl, hs, List.find?_cons_of_neg, hfalse, ih]

/-- A slot returned by the scan is a live slot and is idle. -/
theorem scanNames_some_mem (agents : List AgentSlot) (names : List String)
    (slot : AgentSlot) (h : (scanNames agents names).1 = some slot) :
    slot ∈ agents ∧ slot.status = "idle" := by
  induction names with
  | nil => simp [scanNames] at h
  | cons n rest ih =>
    cases hl : lookupSlot agents n with
    | none =>
      simp only [scanNames, hl] at h
      exact ih h
    | some s =>
      by_cases hs : s.status = "idle"
      · simp only [scanNames, hl, hs, if_pos] at h
        cases h
        exact ⟨List.mem_of_find?_eq_some hl, hs⟩
      · simp only [scanNames, hl, hs, if_neg, ite_false] at h
        exact ih h

/-- On a non-empty pool, `FindAvailableAgent` scans the rotation of the sorted
ids and records the pick. -/
theorem findAvailableAgent_nonempty (pm : PMState) (hne : pm.agents ≠ []) :
    findAvailableAgent pm =
      (match (scanNames pm.agents
          (rotateAfterLast (sortStrings (pm.agents.map (fun s => s.agentID)))
            pm.lastAssigned)).1 with
       | some slot =>
         (some slot, { pm with lastAssigned := slot.agentID },
          (scanNames pm.agents
            (rotateAfterLast (sortStrings (pm.agents.map (fun s => s.agentID)))
              pm.lastAssigned)).2)
       | none =>
         (none, pm,
          (scanNames pm.agents
            (rotateAfterLast (sortStrings (pm.agents.map (fun s => s.agentID)))
              pm.lastAssigned)).2)) := by
  have hempty : pm.agents.isEmpty = false := by
    cases hag : pm.agents with
    | nil => exact absurd hag hne
    | cons a as => rfl
  have hids : sortStrings (pm.agents.map (fun s => s.agentID)) ≠ [] := by
    intro hcon
    apply hne
    have hl := length_sortStrings (pm.agents.map (fun s => s.agentID))
    rw [hcon] at hl
    simp at hl
    have h0 : pm.agents.length = 0 := by omega
    exact List.length_eq_zero.mp h0
  unfold findAvailableAgent
  rw [rotateAfterLast_eq_visitNames _ _ hids]
  simp [hempty]

/-- C8: find-idle behaves as claimed — on an empty pool it returns nothing
without taking any per-slot lock and leaves the state unchanged; the id it
picks is the first idle slot in lexicographic order starting just after the
last-assigned identifier, wrapping around; a returned slot is a live idle
slot and is recorded as last-assigned; with no idle slot it returns
nothing. -/
theorem findAvailableAgent_claim (pm : PMState) :
    (pm.agents = [] → findAvailableAgent pm = (none, pm, [])) ∧
    ((findAvailableAgent pm).1.map (fun s => s.agentID) = roundRobinSpecPick pm) ∧
    (∀ slot, (findAvailableAgent pm).1 = some slot →
      slot ∈ pm.agents ∧ slot.status = "idle" ∧
      (findAvailableAgent pm).2.1.lastAssigned = slot.agentID) ∧
    ((∀ s ∈ pm.agents, s.status ≠ "idle") → (findAvailableAgent pm).1 = none) := by
  by_cases hne : pm.agents = []
  · refine ⟨fun _ => ?_, ?_, fun slot hslot => ?_, fun _ => ?_⟩
    · simp [findAvailableAgent, hne]
    · simp [findAvailableAgent, hne, roundRobinSpecPick, rotateAfterLast, sortStrings,
        isIdleName, List.isEmpty_iff]
    · simp [findAvailableAgent, hne, List.isEmpty_iff] at hslot
    · simp [findAvailableAgent, hne, List.isEmpty_iff]
  · have hdef := findAvailableAgent_nonempty pm hne
    have hfind := scanNames_fst_eq_find pm.agents
      (rotateAfterLast (sortStrings (pm.agents.map (fun s => s.agentID))) pm.lastAssigned)
    refine ⟨fun hcon => absurd hcon hne, ?_, fun slot hslot => ?_, fun hnoidle => ?_⟩
    · rw [hdef]
      cases hscan : (scanNames pm.agents
          (rotateAfterLast (sortStrings (pm.agents.map (fun s => s.agentID)))
            pm.lastAssigned)).1 with
      | none =>
        rw [hscan] at hfind
        simpa [roundRobinSpecPick] using hfind
      | some slot =>
        rw [hscan] at hfind
        simpa [roundRobinSpecPick] using hfind
    · rw [hdef] at hslot
      cases hscan : (scanNames pm.agents
          (rotateAfterLast (sortStrings (pm.agents.map (fun s => s.agentID)))
            pm.lastAssigned)).1 with
      | none => rw [hscan] at hslot; simp at hslot
      | some s =>
        rw [hscan] at hslot
        simp at hslot
        subst hslot
        have hmem := scanNames_some_mem pm.agents _ s hscan
        refine ⟨hmem.1, hmem.2, ?_⟩
        rw [hdef]
        cases hscan2 : (scanNames pm.agents
            (rotateAfterLast (sortStrings (pm.agents.map (fun s => s.agentID)))
              pm.lastAssigned)).1 with
        | none => rw [hscan2] at hscan; exact absurd hscan (by simp)
        | some u =>
          rw [hscan2] at hscan
          simp at hscan
          subst hscan
          simp
    · rw [hdef]
      have hnone : (rotateAfterLast (sortStrings (pm.agents.map (fun s => s.agentID)))
          pm.lastAssigned).find? (isIdleName pm.agents) = none := by
        apply List.find?_eq_none.mpr
        intro n _
        cases hl : lookupSlot pm.agents n with
        | none => simp [isIdleName, hl]
        | some s =>
          have hmem := List.mem_of_find?_eq_some hl
          simp [isIdleName, hl, hnoidle s hmem]
      rw [hnone] at hfind
      cases hscan : (scanNames pm.agents
          (rotateAfterLast (sortStrings (pm.agents.map (fun s => s.agentID)))
            pm.lastAssigned)).1 with
      | none => simp
      | some s => rw [hscan] at hfind; simp at hfind

/-- A two-slot pool: `alpha` idle, `beta` busy, `alpha` last-assigned, so
the scan starts at `beta` and wraps around to pick `alpha`. -/
def c8Pool : PMState :=
  { agents := [⟨"alpha", "", "sa", "idle", "", "claude"⟩,
               ⟨"beta", "", "sb", "busy", "t", "claude"⟩],
    lastAssigned := "alpha" }

/-- C8 witness: on the empty pool nothing is returned with no lock taken; on
`c8Pool` the wrap-around pick is `alpha`, which is live, idle, and recorded
as last-assigned; on an all-busy pool nothing is returned. -/
theorem findAvailableAgent_claim_witness :
    (findAvailableAgent { agents := [], lastAssigned := "" } =
      (none, { agents := [], lastAssigned := "" }, [])) ∧
    ((findAvailableAgent c8Pool).1.map (fun s => s.agentID) = some "alpha") ∧
    ((⟨"alpha", "", "sa", "idle", "", "claude"⟩ : AgentSlot) ∈ c8Pool.agents ∧
      (⟨"alpha", "", "sa", "idle", "", "claude"⟩ : AgentSlot).status = "idle" ∧
      (findAvailableAgent c8Pool).2.1.lastAssigned = "alpha") ∧
    ((findAvailableAgent
        { agents := [⟨"gamma", "", "sg", "busy", "t", "claude"⟩],
          lastAssigned := "" }).1 = none) := by
  refine ⟨(findAvailableAgent_claim _).1 rfl,
    ((findAvailableAgent_claim c8Pool).2.1).trans (by decide),
    (findAvailableAgent_claim c8Pool).2.2.1 ⟨"alpha", "", "sa", "idle", "", "claude"⟩
      (by decide),
    (findAvailableAgent_claim _).2.2.2 ?_⟩
  intro s hs
  simp at hs
  rw [hs]
  decide

/-! ## ProcessManager.ExecuteTask (part_006 lines 177-251)

The call looks the slot up, fail-fasts while the slot is busy (before the
deferred release is registered, so nothing is changed and no callback runs),
otherwise marks it busy with the task id for the duration of the call; the
deferred block always returns it to idle with an empty current task and
spawns the `onAgentAvailable` callback when one is registered.  The two tmux
commands are modelled by success flags; the Go error strings wrap the
command's own error, which the model omits after the fixed prefix. -/

/-- The deferred release: the slot returns to `idle` with no current task. -/
def updateSlotIdle (agents : List AgentSlot) (agentID : String) : List AgentSlot :=
  agents.map (fun s =>
    if s.agentID = agentID then { s with status := "idle", currentTask := "" } else s)

/-- Result of `ExecuteTask`: final manager state, tmux commands issued,
number of callback goroutines spawned, and the returned value or error. -/
structure ExecResult where
  pm : PMState
  actions : List TmuxAction
  callbackRuns : Nat
  result : Except String String
deriving Repr

/-- The dispatch prompt: task-id preamble, description, and a trailing
scope line when scope paths are present; newlines then become spaces and
double spaces are collapsed in one pass. -/
def executePrompt (taskID description : String) (scopePaths : List String) : String :=
  let prompt0 := "[Task ID: " ++ taskID ++ "]\n\n" ++ description
  let prompt :=
    if scopePaths.length > 0 then
      prompt0 ++ "\n\nScope/files: " ++ goJoin scopePaths ", "
    else prompt0
  goReplaceAll (goReplaceAll prompt "\n" " ") "  " " "

/-- `ProcessManager.ExecuteTask`. -/
def executeTask (pm : PMState) (hasCallback : Bool) (agentID taskID description : String)
    (scopePaths : List String) (sendTextOk sendEnterOk : Bool) : ExecResult :=
  match lookupSlot pm.agents agentID with
  | none => ⟨pm, [], 0, .error ("agent " ++ agentID ++ " not found")⟩
  | some slot =>
    if slot.status = "busy" then
      ⟨pm, [], 0, .error ("agent " ++ agentID ++ " is busy")⟩
    else
      let pmOut : PMState := { pm with agents := updateSlotIdle pm.agents agentID }
      let cb := if hasCallback then 1 else 0
      let singleLine := executePrompt taskID description scopePaths
      if sendTextOk = false then
        ⟨pmOut, [.sendText slot.tmuxSession singleLine], cb,
         .error "failed to send task to tmux"⟩
      else if sendEnterOk = false then
        ⟨pmOut,
         [.sendText slot.tmuxSession singleLine, .sleepMs 300,
          .sendEnter slot.tmuxSession], cb,
         .error "failed to submit task to tmux"⟩
      else
        ⟨pmOut,
         [.sendText slot.tmuxSession singleLine, .sleepMs 300,
          .sendEnter slot.tmuxSession], cb,
         .ok "Task sent to agent's tmux session. Use 'map agent watch' to interact."⟩

/-- Reading back the slot released by the deferred block. -/
theorem lookupSlot_updateSlotIdle (agents : List AgentSlot) (id : String) (slot : AgentSlot)
    (hfind : lookupSlot agents id = some slot) :
    lookupSlot (updateSlotIdle agents id) id =
      some { slot with status := "idle", currentTask := "" } := by
  induction agents with
  | nil => simp [lookupSlot] at hfind
  | cons r rs ih =>
    by_cases hr : r.agentID = id
    · have hrt : r = slot := by
        simpa [lookupSlot, List.find?_cons_of_pos, hr] using hfind
      subst hrt
      simp [lookupSlot, updateSlotIdle, List.find?_cons_of_pos, hr]
    · have hfind' : lookupSlot rs id = some slot := by
        simpa [lookupSlot, List.find?_cons_of_neg, hr] using hfind
      have := ih hfind'
      simpa [lookupSlot, updateSlotIdle, List.find?_cons_of_neg, hr] using this

/-- C7: on a busy slot `ExecuteTask` fails fast leaving the manager state —
in particular the slot's status and current task — unchanged, issuing no
tmux command and invoking no callback; on an idle slot, whatever the two
send outcomes, the call returns with the slot idle again and its current
task empty, and the agent-available callback (when registered, as the daemon
wires it) has been invoked exactly once. -/
theorem executeTask_claim (pm : PMState) (agentID taskID description : String)
    (scopePaths : List String) (slot : AgentSlot)
    (hfind : lookupSlot pm.agents agentID = some slot) :
    (slot.status = "busy" →
      ∀ hasCallback sendTextOk sendEnterOk,
        executeTask pm hasCallback agentID taskID description scopePaths
            sendTextOk sendEnterOk =
          ⟨pm, [], 0, .error ("agent " ++ agentID ++ " is busy")⟩) ∧
    (slot.status = "idle" →
      ∀ hasCallback sendTextOk sendEnterOk,
        lookupSlot (executeTask pm hasCallback agentID taskID description scopePaths
            sendTextOk sendEnterOk).pm.agents agentID =
          some { slot with status := "idle", currentTask := "" } ∧
        (executeTask pm hasCallback agentID taskID description scopePaths
            sendTextOk sendEnterOk).callbackRuns = (if hasCallback then 1 else 0) ∧
        (hasCallback = true →
          (executeTask pm hasCallback agentID taskID description scopePaths
              sendTextOk sendEnterOk).callbackRuns = 1)) := by
  constructor
  · intro hbusy hasCallback sendTextOk sendEnterOk
    simp [executeTask, hfind, hbusy]
  · intro hidle hasCallback sendTextOk sendEnterOk
    have hnotbusy : ¬ slot.status = "busy" := by
      rw [hidle]; decide
    have hlook := lookupSlot_updateSlotIdle pm.agents agentID slot hfind
    refine ⟨?_, ?_, ?_⟩
    · cases sendTextOk <;> cases sendEnterOk <;>
        simp [executeTask, hfind, hnotbusy, hlook]
    · cases sendTextOk <;> cases sendEnterOk <;>
        simp [executeTask, hfind, hnotbusy]
    · intro hcb
      cases sendTextOk <;> cases sendEnterOk <;>
        simp [executeTask, hfind, hnotbusy, hcb]

/-- A manager holding one busy slot `b1`. -/
def c7BusyPM : PMState := ⟨[⟨"b1", "", "sb", "busy", "t9", "claude"⟩], ""⟩

/-- A manager holding one idle slot `a1`. -/
def c7IdlePM : PMState := ⟨[⟨"a1", "", "sa", "idle", "", "claude"⟩], ""⟩

/-- C7 witness: the busy slot `b1` is rejected with everything unchanged; the
idle slot `a1` is idle again with an empty current task on return, with the
callback having run once, even when both sends fail. -/
theorem executeTask_claim_witness :
    (executeTask c7BusyPM true "b1" "t1" "desc" [] true true =
      ⟨c7BusyPM, [], 0, .error ("agent " ++ "b1" ++ " is busy")⟩) ∧
    (lookupSlot (executeTask c7IdlePM true "a1" "t1" "desc" [] false false).pm.agents "a1" =
      some ⟨"a1", "", "sa", "idle", "", "claude"⟩ ∧
     (executeTask c7IdlePM true "a1" "t1" "desc" [] false false).callbackRuns = 1) := by
  constructor
  · exact (executeTask_claim c7BusyPM "b1" "t1" "desc" []
      ⟨"b1", "", "sb", "busy", "t9", "claude"⟩ (by decide)).1 rfl true true true
  · have h := (executeTask_claim c7IdlePM "a1" "t1" "desc" []
      ⟨"a1", "", "sa", "idle", "", "claude"⟩ (by decide)).2 rfl true false false
    exact ⟨h.1, h.2.2 rfl⟩

/-! ### The two replacement passes, characterized

`ReplaceAll("\n", " ")` is a character map; `ReplaceAll("  ", " ")` fixes a
list with no two adjacent spaces and collapses a double space sitting after
such a list. -/

/-- The newline-to-space character map. -/
def nlToSp (c : Char) : Char := if c = '\n' then ' ' else c

/-- Single-character replacement is a map. -/
theorem replaceList_single (a b : Char) (l : List Char) :
    replaceList [a] [b] l = l.map (fun c => if c = a then b else c) := by
  induction l with
  | nil => rfl
  | cons c rest ih =>
    rw [replaceList_cons]
    by_cases hc : c = a
    · subst hc
      simp [List.isPrefixOf, ih]
    · have hpre : ([a].isPrefixOf (c :: rest)) = false := by
        rw [Bool.eq_false_iff]
        intro hcon
        simp only [List.isPrefixOf, List.isPrefixOf_nil_left, Bool.and_true,
          beq_iff_eq] at hcon
        exact hc hcon.symm
      simp [hpre, hc, ih]

/-- A map that fixes every member fixes the list. -/
theorem map_eq_self_of_fixed {α : Type} (f : α → α) (l : List α)
    (h : ∀ x ∈ l, f x = x) : l.map f = l := by
  induction l with
  | nil => rfl
  | cons x xs ih =>
    simp [h x (List.mem_cons_self x xs), ih (fun y hy => h y (List.mem_cons_of_mem x hy))]

/-- No two adjacent spaces. -/
def noDSb : List Char → Bool
  | [] => true
  | [_] => true
  | a :: b :: rest => !(a = ' ' && b = ' ') && noDSb (b :: rest)

/-- The head constraint of `noDSb` on a pair. -/
theorem noDSb_pair {a b : Char} {rest : List Char}
    (h : noDSb (a :: b :: rest) = true) : ¬ (a = ' ' ∧ b = ' ') := by
  rintro ⟨ha, hb⟩
  subst ha
  subst hb
  simp [noDSb] at h

/-- The tail constraint of `noDSb` on a pair. -/
theorem noDSb_tail {a b : Char} {rest : List Char}
    (h : noDSb (a :: b :: rest) = true) : noDSb (b :: rest) = true := by
  have h2 : (!(a = ' ' && b = ' ') && noDSb (b :: rest)) = true := h
  have h3 : (!(a = ' ' && b = ' ')) = true ∧ noDSb (b :: rest) = true := by
    simpa using h2
  exact h3.2

/-- Collapsing double spaces fixes a list without adjacent spaces. -/
theorem replaceList_ds_eq_self (l : List Char) (h : noDSb l = true) :
    replaceList [' ', ' '] [' '] l = l := by
  induction l with
  | nil => rfl
  | cons a tail ih =>
    cases tail with
    | nil =>
      rw [replaceList_cons]
      simp [List.isPrefixOf, replaceList_nil]
    | cons b rest =>
      have hpre : ([' ', ' '].isPrefixOf (a :: b :: rest)) = false := by
        rw [Bool.eq_false_iff]
        intro hcon
        simp only [List.isPrefixOf, List.isPrefixOf_nil_left, Bool.and_true,
          Bool.and_eq_true, beq_iff_eq] at hcon
        exact noDSb_pair h ⟨hcon.1.symm, hcon.2.symm⟩
      rw [replaceList_cons]
      simp [hpre, ih (noDSb_tail h)]

/-- Collapsing a double space that follows a space-clean block keeps the
block and leaves a single space. -/
theorem replaceList_ds_seg (A B : List Char) (hA : noDSb A = true)
    (hlast : A.getLast? ≠ some ' ') :
    replaceList [' ', ' '] [' '] (A ++ ' ' :: ' ' :: B) =
      A ++ ' ' :: replaceList [' ', ' '] [' '] B := by
  induction A with
  | nil =>
    rw [List.nil_append, replaceList_cons]
    simp [List.isPrefixOf]
  | cons a A2 ih =>
    have hnosp : ¬ ([' ', ' '].isPrefixOf (a :: (A2 ++ ' ' :: ' ' :: B))) = true := by
      cases A2 with
      | nil =>
        have ha : a ≠ ' ' := by
          intro hcon
          exact hlast (by simp [hcon])
        intro hcon
        simp only [List.nil_append, List.isPrefixOf, List.isPrefixOf_nil_left,
          Bool.and_true, Bool.and_eq_true, beq_iff_eq] at hcon
        exact ha hcon.1.symm
      | cons a2 A3 =>
        intro hcon
        simp only [List.cons_append, List.isPrefixOf, List.isPrefixOf_nil_left,
          Bool.and_true, Bool.and_eq_true, beq_iff_eq] at hcon
        exact noDSb_pair hA ⟨hcon.1.symm, hcon.2.symm⟩
    have hA2 : noDSb A2 = true := by
      cases A2 with
      | nil => rfl
      | cons a2 A3 => exact noDSb_tail hA
    have hlast2 : A2.getLast? ≠ some ' ' := by
      cases A2 with
      | nil => simp
      | cons a2 A3 =>
        rw [← List.getLast?_cons_cons (a := a)]
        exact hlast
    rw [List.cons_append, replaceList_cons, if_neg]
    · rw [ih hA2 hlast2, List.cons_append]
    · intro hcon
      exact hnosp hcon.2

/-- `ReplaceAll("\n", " ")` at the data level is the character map. -/
theorem data_nlmap (s : String) :
    (goReplaceAll s "\n" " ").data = s.data.map nlToSp := by
  show replaceList ("\n" : String).data (" " : String).data s.data = _
  rw [show ("\n" : String).data = ['\n'] from rfl, show (" " : String).data = [' '] from rfl,
    replaceList_single]
  rfl

/-- `ReplaceAll("  ", " ")` at the data level. -/
theorem data_collapse (s : String) :
    (goReplaceAll s "  " " ").data = replaceList [' ', ' '] [' '] s.data := rfl

/-- Mapping newlines to spaces across the two separator blocks. -/
theorem nlmap_blocks (L1 L2 L3 : List Char)
    (h1 : '\n' ∉ L1) (h2 : '\n' ∉ L2) (h3 : '\n' ∉ L3) :
    (L1 ++ '\n' :: '\n' :: (L2 ++ '\n' :: '\n' :: L3)).map nlToSp =
      L1 ++ ' ' :: ' ' :: (L2 ++ ' ' :: ' ' :: L3) := by
  have fix : ∀ (L : List Char), '\n' ∉ L → L.map nlToSp = L := by
    intro L hL
    apply map_eq_self_of_fixed
    intro x hx
    have hxne : ¬ x = '\n' := fun hcon => hL (hcon ▸ hx)
    simp [nlToSp, hxne]
  simp [fix L1 h1, fix L2 h2, fix L3 h3, nlToSp]

/-- Mapping newlines to spaces across one separator block. -/
theorem nlmap_block2 (L1 L2 : List Char) (h1 : '\n' ∉ L1) (h2 : '\n' ∉ L2) :
    (L1 ++ '\n' :: '\n' :: L2).map nlToSp = L1 ++ ' ' :: ' ' :: L2 := by
  have fix : ∀ (L : List Char), '\n' ∉ L → L.map nlToSp = L := by
    intro L hL
    apply map_eq_self_of_fixed
    intro x hx
    have hxne : ¬ x = '\n' := fun hcon => hL (hcon ▸ hx)
    simp [nlToSp, hxne]
  simp [fix L1 h1, fix L2 h2, nlToSp]

/-- Collapsing the two double-space separators between space-clean blocks. -/
theorem collapse_blocks (L1 L2 L3 : List Char)
    (h1 : noDSb L1 = true) (h1last : L1.getLast? ≠ some ' ')
    (h2 : noDSb L2 = true) (h2last : L2.getLast? ≠ some ' ')
    (h3 : noDSb L3 = true) :
    replaceList [' ', ' '] [' '] (L1 ++ ' ' :: ' ' :: (L2 ++ ' ' :: ' ' :: L3)) =
      L1 ++ ' ' :: (L2 ++ ' ' :: L3) := by
  rw [replaceList_ds_seg L1 _ h1 h1last, replaceList_ds_seg L2 _ h2 h2last,
    replaceList_ds_eq_self L3 h3]

/-- When the task id introduces no double space inside its preamble, the
description is space-clean and does not end with a space, the joined scope
list is space-clean after its label, and none of them contains a newline,
the dispatched prompt is exactly the claim's composition with single spaces
between the parts. -/
theorem executePrompt_single_spaced (taskID description : String)
    (scopePaths : List String) (hscope : 0 < scopePaths.length)
    (hInl : '\n' ∉ taskID.data) (hDnl : '\n' ∉ description.data)
    (hJnl : '\n' ∉ (goJoin scopePaths ", ").data)
    (hAds : noDSb ("[Task ID: " ++ taskID ++ "]").data = true)
    (hDds : noDSb description.data = true)
    (hDlast : description.data.getLast? ≠ some ' ')
    (hCds : noDSb ("Scope/files: " ++ goJoin scopePaths ", ").data = true) :
    executePrompt taskID description scopePaths =
      "[Task ID: " ++ taskID ++ "] " ++ description ++ " Scope/files: " ++
        goJoin scopePaths ", " := by
  have hstep1 : executePrompt taskID description scopePaths =
      goReplaceAll (goReplaceAll
        ("[Task ID: " ++ taskID ++ "]\n\n" ++ description ++
          "\n\nScope/files: " ++ goJoin scopePaths ", ") "\n" " ") "  " " " := by
    simp [executePrompt, hscope]
  have e1 : ("]\n\n" : String).data = ("]" : String).data ++ ['\n', '\n'] := by decide
  have e2 : ("\n\nScope/files: " : String).data =
      '\n' :: '\n' :: ("Scope/files: " : String).data := by decide
  have e3 : ("] " : String).data = ("]" : String).data ++ [' '] := by decide
  have e4 : (" Scope/files: " : String).data =
      ' ' :: ("Scope/files: " : String).data := by decide
  have hdataP : ("[Task ID: " ++ taskID ++ "]\n\n" ++ description ++
      "\n\nScope/files: " ++ goJoin scopePaths ", ").data =
      ("[Task ID: " ++ taskID ++ "]").data ++ '\n' :: '\n' ::
        (description.data ++ '\n' :: '\n' ::
          ("Scope/files: " ++ goJoin scopePaths ", ").data) := by
    simp [String.data_append, e1, e2, List.append_assoc]
  have h1 : '\n' ∉ ("[Task ID: " ++ taskID ++ "]").data := by
    simp [String.data_append]
    exact hInl
  have h3 : '\n' ∉ ("Scope/files: " ++ goJoin scopePaths ", ").data := by
    simp [String.data_append]
    exact hJnl
  have h1last : ("[Task ID: " ++ taskID ++ "]").data.getLast? ≠ some ' ' := by
    rw [show ("[Task ID: " ++ taskID ++ "]").data =
        ("[Task ID: " ++ taskID).data ++ [']'] from by simp [String.data_append]]
    rw [List.getLast?_concat]
    decide
  apply String.ext
  rw [hstep1, data_collapse, data_nlmap, hdataP,
    nlmap_blocks _ _ _ h1 hDnl h3,
    collapse_blocks _ _ _ hAds h1last hDds hDlast hCds]
  simp [String.data_append, e3, e4, List.append_assoc]

/-- A manager holding one idle slot `a1` with session `sa` (scenario 1). -/
def c5PM : PMState := ⟨[⟨"a1", "", "sa", "idle", "", "claude"⟩], ""⟩

/-- C5 counterexample: after the newline pass the prompt has two spaces
between its parts, but the code's second pass collapses each double space to
one, so the session receives the single-spaced text, not the claimed
two-space text. -/
theorem executePrompt_claim_counterexample :
    executePrompt "t1" "Fix the login bug" ["/src/auth"] =
      "[Task ID: t1] Fix the login bug Scope/files: /src/auth" ∧
    "[Task ID: t1] Fix the login bug Scope/files: /src/auth" ≠
      "[Task ID: t1]  Fix the login bug  Scope/files: /src/auth" ∧
    (executeTask c5PM true "a1" "t1" "Fix the login bug" ["/src/auth"] true true).actions =
      [.sendText "sa" "[Task ID: t1] Fix the login bug Scope/files: /src/auth",
       .sleepMs 300, .sendEnter "sa"] := by
  refine ⟨by decide, by decide, ?_⟩
  have h : executePrompt "t1" "Fix the login bug" ["/src/auth"] =
      "[Task ID: t1] Fix the login bug Scope/files: /src/auth" := by decide
  simp [executeTask, c5PM, lookupSlot, h]

/-- C5 (amended): for a dispatch to an idle slot with non-empty scope paths
whose text delivery succeeds, the session receives exactly one send-text
carrying the prompt `"[Task ID: I]\n\nD\n\nScope/files: P-joined"` with
newlines turned into spaces and each double space then collapsed to one —
single spaces between the parts, not two; whenever the id, description and
joined scope list are newline-free and introduce no adjacent spaces, the
delivered text is exactly `"[Task ID: I] D Scope/files: P-joined"` with
single separators, followed by exactly one line-submit; for scenario 1 it is
exactly `"[Task ID: t1] Fix the login bug Scope/files: /src/auth"`. -/
theorem executeTask_prompt_corrected (pm : PMState) (agentID taskID description : String)
    (scopePaths : List String) (slot : AgentSlot)
    (hfind : lookupSlot pm.agents agentID = some slot) (hidle : slot.status = "idle")
    (hscope : 0 < scopePaths.length) :
    (∀ hasCallback sendEnterOk,
      (executeTask pm hasCallback agentID taskID description scopePaths
          true sendEnterOk).actions =
        [.sendText slot.tmuxSession
           (goReplaceAll (goReplaceAll
              ("[Task ID: " ++ taskID ++ "]\n\n" ++ description ++
                "\n\nScope/files: " ++ goJoin scopePaths ", ") "\n" " ") "  " " "),
         .sleepMs 300, .sendEnter slot.tmuxSession]) ∧
    ('\n' ∉ taskID.data → '\n' ∉ description.data →
      '\n' ∉ (goJoin scopePaths ", ").data →
      noDSb ("[Task ID: " ++ taskID ++ "]").data = true →
      noDSb description.data = true →
      description.data.getLast? ≠ some ' ' →
      noDSb ("Scope/files: " ++ goJoin scopePaths ", ").data = true →
      executePrompt taskID description scopePaths =
        "[Task ID: " ++ taskID ++ "] " ++ description ++ " Scope/files: " ++
          goJoin scopePaths ", ") ∧
    executePrompt "t1" "Fix the login bug" ["/src/auth"] =
      "[Task ID: t1] Fix the login bug Scope/files: /src/auth" := by
  have hnotbusy : ¬ slot.status = "busy" := by rw [hidle]; decide
  refine ⟨fun hasCallback sendEnterOk => ?_,
    fun hInl hDnl hJnl hAds hDds hDlast hCds =>
      executePrompt_single_spaced taskID description scopePaths hscope
        hInl hDnl hJnl hAds hDds hDlast hCds,
    by decide⟩
  have hprompt : executePrompt taskID description scopePaths =
      goReplaceAll (goReplaceAll
        ("[Task ID: " ++ taskID ++ "]\n\n" ++ description ++
          "\n\nScope/files: " ++ goJoin scopePaths ", ") "\n" " ") "  " " " := by
    simp [executePrompt, hscope]
  cases sendEnterOk <;> simp [executeTask, hfind, hnotbusy, hprompt]

/-- C5 witness: the amended theorem applied to scenario 1 — one idle slot,
description `"Fix the login bug"`, scope `["/src/auth"]`. -/
theorem executeTask_prompt_corrected_witness :
    (executeTask c5PM true "a1" "t1" "Fix the login bug" ["/src/auth"] true true).actions =
      [.sendText "sa"
         (goReplaceAll (goReplaceAll
            ("[Task ID: " ++ "t1" ++ "]\n\n" ++ "Fix the login bug" ++
              "\n\nScope/files: " ++ goJoin ["/src/auth"] ", ") "\n" " ") "  " " "),
       .sleepMs 300, .sendEnter "sa"] ∧
    executePrompt "t1" "Fix the login bug" ["/src/auth"] =
      "[Task ID: " ++ "t1" ++ "] " ++ "Fix the login bug" ++ " Scope/files: " ++
        goJoin ["/src/auth"] ", " := by
  constructor
  · exact ((executeTask_prompt_corrected c5PM "a1" "t1" "Fix the login bug" ["/src/auth"]
      ⟨"a1", "", "sa", "idle", "", "claude"⟩ (by decide) rfl (by decide)).1 true true)
  · exact ((executeTask_prompt_corrected c5PM "a1" "t1" "Fix the login bug" ["/src/auth"]
      ⟨"a1", "", "sa", "idle", "", "claude"⟩ (by decide) rfl (by decide)).2.1
      (by decide) (by decide) (by decide) (by decide) (by decide) (by decide) (by decide))

/-! ## GitHubPoller (part_000 lines 160-528)

Comments come back from `gh issue view --json comments` oldest first (newest
last).  The code parses each comment's RFC3339 creation string; we model the
parse result directly (`none` for an unparseable timestamp, which the code
skips with `continue`).  The `gh` invocations are modelled by their
`Except`-valued results. -/

/-- The bot-identifier magic string (`inputRequestPrefix` in the source). -/
def inputRequestMagic : String := "**My agent needs more input:**"

/-- A GitHub issue comment (`ghComment`), with the creation time already
parsed to Unix seconds. -/
structure GhComment where
  id : String
  body : String
  authorLogin : String
  createdAt : Option Nat
deriving DecidableEq, Repr

/-- The three skip rules of `checkTaskForResponse`, in the code's order: an
unparseable timestamp is skipped, a comment created strictly before the
waiting-since timestamp is skipped, a comment whose body starts with the
magic string is skipped, and a comment whose id equals the (non-empty)
last-seen reply id is skipped. -/
def commentSurvives (task : TaskRecord) (c : GhComment) : Bool :=
  match c.createdAt with
  | none => false
  | some t =>
    !(decide (t < task.waitingInputSince)) &&
    !(strStartsWith c.body inputRequestMagic) &&
    !((task.lastCommentID != "") && (c.id == task.lastCommentID))

/-- The selection loop: `for i := len(comments)-1; i >= 0; i--` breaks at the
first survivor, so the tail of the list (the newest comments) is examined
first. -/
def findNewComment (task : TaskRecord) : List GhComment → Option GhComment
  | [] => none
  | c :: rest =>
    match findNewComment task rest with
    | some r => some r
    | none => if commentSurvives task c then some c else none

/-- `ProcessManager.GetTmuxSession`: empty string when the agent is
unknown. -/
def getTmuxSession (pm : PMState) (agentID : String) : String :=
  match lookupSlot pm.agents agentID with
  | some slot => slot.tmuxSession
  | none => ""

/-- The injected text: `"User response to your question:\n\n" + body`,
newlines replaced by spaces, then each double space collapsed to one. -/
def deliverText (response : String) : String :=
  goReplaceAll (goReplaceAll
    ("User response to your question:\n\n" ++ response) "\n" " ") "  " " "

/-- For a body with no newline and no adjacent spaces, the injected text is
the fixed preamble, one space, and the body unchanged. -/
theorem deliverText_single_spaced (B : String)
    (hnl : '\n' ∉ B.data) (hds : noDSb B.data = true) :
    deliverText B = "User response to your question: " ++ B := by
  have e1 : ("User response to your question:\n\n" : String).data =
      ("User response to your question:" : String).data ++ ['\n', '\n'] := by decide
  have e2 : ("User response to your question: " : String).data =
      ("User response to your question:" : String).data ++ [' '] := by decide
  apply String.ext
  show (goReplaceAll (goReplaceAll
    ("User response to your question:\n\n" ++ B) "\n" " ") "  " " ").data = _
  rw [data_collapse, data_nlmap]
  have hdata : ("User response to your question:\n\n" ++ B).data =
      ("User response to your question:" : String).data ++ '\n' :: '\n' :: B.data := by
    simp [String.data_append, e1]
  rw [hdata, nlmap_block2 _ _ (by decide) hnl,
    replaceList_ds_seg _ _ (by decide) (by decide),
    replaceList_ds_eq_self _ hds]
  simp [String.data_append, e2]

/-- `GitHubPoller.deliverResponseToAgent`: the commands sent to tmux
(text, 1s paste settle, Enter, 0.5s settle, Enter) and the outcome; the
three tmux invocations are modelled by success flags. -/
def deliverResponseToAgent (pm : PMState) (task : TaskRecord) (response : String)
    (sendTextOk enter1Ok enter2Ok : Bool) : List TmuxAction × Except String Unit :=
  if task.assignedTo = "" then ([], .error "task has no assigned agent")
  else
    let sess := getTmuxSession pm task.assignedTo
    if sess = "" then
      ([], .error ("agent " ++ task.assignedTo ++ " has no tmux session"))
    else
      let msg := deliverText response
      if sendTextOk = false then
        ([.sendText sess msg], .error "failed to send response text")
      else if enter1Ok = false then
        ([.sendText sess msg, .sleepMs 1000, .sendEnter sess],
         .error "failed to send first Enter")
      else if enter2Ok = false then
        ([.sendText sess msg, .sleepMs 1000, .sendEnter sess, .sleepMs 500, .sendEnter sess],
         .error "failed to send second Enter")
      else
        ([.sendText sess msg, .sleepMs 1000, .sendEnter sess, .sleepMs 500, .sendEnter sess],
         .ok ())

/-- `GitHubPoller.checkTaskForResponse`: on a fetch error, or with no
surviving comment, or when delivery fails, the store is untouched;
otherwise `ClearTaskWaitingInput` records the delivered comment's id and an
input-received event is emitted. -/
def checkTaskForResponse (pm : PMState) (st : List TaskRecord) (task : TaskRecord)
    (fetchResult : Except String (List GhComment))
    (sendTextOk enter1Ok enter2Ok : Bool) (now : Nat) :
    List TaskRecord × List TmuxAction × List TaskEvent :=
  match fetchResult with
  | .error _ => (st, [], [])
  | .ok comments =>
    match findNewComment task comments with
    | none => (st, [], [])
    | some c =>
      let d := deliverResponseToAgent pm task c.body sendTextOk enter1Ok enter2Ok
      match d.2 with
      | .error _ => (st, d.1, [])
      | .ok _ =>
        (storeClearTaskWaitingInput st task.taskID c.id now, d.1,
         [⟨.taskInputReceived, task.taskID, "in_progress", task.assignedTo⟩])

/-- Generic read-back through a keyed row update. -/
theorem storeGetTask_map_update (st : List TaskRecord) (id : String)
    (f : TaskRecord → TaskRecord) (t : TaskRecord) (hpres : (f t).taskID = t.taskID)
    (hfind : storeGetTask st id = some t) :
    storeGetTask (st.map (fun r => if r.taskID = id then f r else r)) id = some (f t) := by
  have hid : t.taskID = id := by
    have := List.find?_some hfind
    simpa using this
  induction st with
  | nil => simp [storeGetTask] at hfind
  | cons r rs ih =>
    by_cases hr : r.taskID = id
    · have hrt : r = t := by
        simpa [storeGetTask, List.find?_cons_of_pos, hr] using hfind
      subst hrt
      simp only [List.map_cons, if_pos hr]
      have : (f r).taskID = id := by rw [hpres, hid]
      simp [storeGetTask, List.find?_cons_of_pos, this]
    · have hfind' : storeGetTask rs id = some t := by
        simpa [storeGetTask, List.find?_cons_of_neg, hr] using hfind
      have := ih hfind'
      simpa [storeGetTask, List.find?_cons_of_neg, hr] using this

/-- When no comment survives, the backwards scan finds nothing. -/
theorem findNewComment_none (task : TaskRecord) (comments : List GhComment)
    (h : ∀ c ∈ comments, commentSurvives task c = false) :
    findNewComment task comments = none := by
  induction comments with
  | nil => rfl
  | cons c rest ih =>
    have hrest := ih (fun d hd => h d (List.mem_cons_of_mem c hd))
    have hc := h c (List.mem_cons_self c rest)
    simp [findNewComment, hrest, hc]

/-- The backwards scan returns the last surviving comment in list order. -/
theorem findNewComment_last (task : TaskRecord) (pre post : List GhComment) (c : GhComment)
    (hc : commentSurvives task c = true)
    (hpost : ∀ d ∈ post, commentSurvives task d = false) :
    findNewComment task (pre ++ c :: post) = some c := by
  induction pre with
  | nil =>
    have hrest := findNewComment_none task post hpost
    simp [findNewComment, hrest, hc]
  | cons p pre ih =>
    simp [findNewComment, ih]

/-- Scenario-3 task: waiting for input on acme/api#42 since time 10, no
reply seen yet, assigned to `a1`. -/
def c3Task : TaskRecord :=
  { taskID := "t1", description := "d", scopePaths := [], status := "waiting_input",
    assignedTo := "a1", result := "", error := "", createdAt := 1, updatedAt := 1,
    githubOwner := "acme", githubRepo := "api", githubIssueNumber := 42,
    lastCommentID := "", waitingInputQuestion := "q", waitingInputSince := 10 }

/-- The manager for scenario 3: agent `a1` in session `s1`. -/
def c3PM : PMState := ⟨[⟨"a1", "", "s1", "busy", "t1", "claude"⟩], ""⟩

/-- A surviving human reply ("yes"), the older of two. -/
def c3CommentYes : GhComment := ⟨"C2", "yes", "alice", some 20⟩

/-- A surviving human reply ("no"), the newer of two. -/
def c3CommentNo : GhComment := ⟨"C3", "no", "bob", some 30⟩

/-- C3 counterexample: with two surviving comments, the claim's pick — the
first in newest-last (oldest-first) order — is `C2`, but the code scans from
the end of the list and injects the newest survivor `C3`, recording `C3` as
the last-seen reply id. -/
theorem checkTaskForResponse_claim_counterexample :
    commentSurvives c3Task c3CommentYes = true ∧
    commentSurvives c3Task c3CommentNo = true ∧
    List.find? (commentSurvives c3Task) [c3CommentYes, c3CommentNo] = some c3CommentYes ∧
    findNewComment c3Task [c3CommentYes, c3CommentNo] = some c3CommentNo ∧
    ((checkTaskForResponse c3PM [c3Task] c3Task (.ok [c3CommentYes, c3CommentNo])
        true true true 99).1.find? (fun r => r.taskID = "t1")).map
      (fun r => r.lastCommentID) = some "C3" ∧
    c3CommentNo ≠ c3CommentYes := by
  decide

/-- C3 (amended): the inbound poll injects the last comment in newest-last
order — the newest — that survives the three skip rules (a comment with an
unparseable creation time is also skipped); on a fetch error or when no
comment survives it injects nothing and leaves the store unchanged; on
injection the task returns to `in_progress` with the injected comment's id
recorded as last-seen reply id and an input-received event is emitted. -/
theorem checkTaskForResponse_corrected (pm : PMState) (st : List TaskRecord)
    (task : TaskRecord) (now : Nat) :
    (∀ e sOk e1 e2, checkTaskForResponse pm st task (.error e) sOk e1 e2 now = (st, [], [])) ∧
    (∀ comments, (∀ c ∈ comments, commentSurvives task c = false) →
      ∀ sOk e1 e2,
        checkTaskForResponse pm st task (.ok comments) sOk e1 e2 now = (st, [], [])) ∧
    (∀ pre post c t, commentSurvives task c = true →
      (∀ d ∈ post, commentSurvives task d = false) →
      task.assignedTo ≠ "" → getTmuxSession pm task.assignedTo ≠ "" →
      storeGetTask st task.taskID = some t →
      (checkTaskForResponse pm st task (.ok (pre ++ c :: post)) true true true now).1 =
        storeClearTaskWaitingInput st task.taskID c.id now ∧
      storeGetTask
          (checkTaskForResponse pm st task (.ok (pre ++ c :: post)) true true true now).1
          task.taskID =
        some { t with
          status := "in_progress", waitingInputQuestion := "",
          waitingInputSince := 0, lastCommentID := c.id, updatedAt := now } ∧
      (checkTaskForResponse pm st task (.ok (pre ++ c :: post)) true true true now).2.2 =
        [⟨.taskInputReceived, task.taskID, "in_progress", task.assignedTo⟩]) := by
  refine ⟨fun e sOk e1 e2 => rfl, fun comments hnone sOk e1 e2 => ?_, ?_⟩
  · simp [checkTaskForResponse, findNewComment_none task comments hnone]
  · intro pre post c t hc hpost hassigned hsess hfind
    have hlast := findNewComment_last task pre post c hc hpost
    have hdeliver : deliverResponseToAgent pm task c.body true true true =
        ([.sendText (getTmuxSession pm task.assignedTo) (deliverText c.body),
          .sleepMs 1000, .sendEnter (getTmuxSession pm task.assignedTo),
          .sleepMs 500, .sendEnter (getTmuxSession pm task.assignedTo)], .ok ()) := by
      simp [deliverResponseToAgent, hassigned, hsess]
    have hread := storeGetTask_map_update st task.taskID
      (fun r => { r with
        status := "in_progress", waitingInputQuestion := "",
        waitingInputSince := 0, lastCommentID := c.id, updatedAt := now })
      t rfl hfind
    have hst : (checkTaskForResponse pm st task (.ok (pre ++ c :: post))
        true true true now).1 = storeClearTaskWaitingInput st task.taskID c.id now := by
      simp [checkTaskForResponse, hlast, hdeliver]
    refine ⟨hst, ?_, ?_⟩
    · rw [hst]
      simpa [storeClearTaskWaitingInput] using hread
    · simp [checkTaskForResponse, hlast, hdeliver]

/-- The bot's own question comment on issue 42 (skipped by the magic-string
rule). -/
def c3BotComment : GhComment :=
  ⟨"C1", "**My agent needs more input:** Would you like me to rebase onto main?",
   "bot", some 15⟩

/-- Alice's reply, the comment scenario 3 expects to be injected. -/
def c3AliceComment : GhComment := ⟨"C2", "yes please", "alice", some 20⟩

/-- C3 witness: scenario 3 — the bot comment is ignored, Alice's `C2` is
injected, the task returns to `in_progress` with last-seen reply id `C2`. -/
theorem checkTaskForResponse_corrected_witness :
    (checkTaskForResponse c3PM [c3Task] c3Task (.ok [c3BotComment, c3AliceComment])
        true true true 99).1 =
      storeClearTaskWaitingInput [c3Task] "t1" "C2" 99 ∧
    storeGetTask
        (checkTaskForResponse c3PM [c3Task] c3Task (.ok [c3BotComment, c3AliceComment])
          true true true 99).1 "t1" =
      some { c3Task with
        status := "in_progress", waitingInputQuestion := "",
        waitingInputSince := 0, lastCommentID := "C2", updatedAt := 99 } ∧
    (checkTaskForResponse c3PM [c3Task] c3Task (.ok [c3BotComment, c3AliceComment])
        true true true 99).2.2 =
      [⟨.taskInputReceived, "t1", "in_progress", "a1"⟩] := by
  exact (checkTaskForResponse_corrected c3PM [c3Task] c3Task 99).2.2
    [c3BotComment] [] c3AliceComment c3Task (by decide) (by decide)
    (by decide) (by decide) (by decide)

/-- C4 counterexample: the code's second replacement pass collapses the two
spaces left after the prefix's two newlines, so the injected text for body
`"yes please"` carries one space after the colon, not the two the claim
requires. -/
theorem deliverText_claim_counterexample :
    deliverText "yes please" = "User response to your question: yes please" ∧
    "User response to your question: yes please" ≠
      "User response to your question:  yes please" ∧
    (checkTaskForResponse c3PM [c3Task] c3Task (.ok [c3BotComment, c3AliceComment])
        true true true 99).2.1 =
      [.sendText "s1" "User response to your question: yes please",
       .sleepMs 1000, .sendEnter "s1", .sleepMs 500, .sendEnter "s1"] := by
  decide

/-- C4 (amended): the text delivered for the surviving reply with body `B`
is `"User response to your question:\n\n" ++ B` with newlines replaced by
spaces and each double space then collapsed to one — leaving a single space
after the colon, `"User response to your question: yes please"` for scenario
3 — sent as one send-text followed by exactly two line-submit keystrokes
with the settle intervals between them. -/
theorem deliverResponse_corrected (pm : PMState) (st : List TaskRecord)
    (task : TaskRecord) (now : Nat) :
    (∀ pre post c, commentSurvives task c = true →
      (∀ d ∈ post, commentSurvives task d = false) →
      task.assignedTo ≠ "" → getTmuxSession pm task.assignedTo ≠ "" →
      (checkTaskForResponse pm st task (.ok (pre ++ c :: post)) true true true now).2.1 =
        [.sendText (getTmuxSession pm task.assignedTo) (deliverText c.body),
         .sleepMs 1000, .sendEnter (getTmuxSession pm task.assignedTo),
         .sleepMs 500, .sendEnter (getTmuxSession pm task.assignedTo)]) ∧
    (∀ B, deliverText B =
      goReplaceAll (goReplaceAll
        ("User response to your question:\n\n" ++ B) "\n" " ") "  " " ") ∧
    (∀ B, '\n' ∉ B.data → noDSb B.data = true →
      deliverText B = "User response to your question: " ++ B) ∧
    deliverText "yes please" = "User response to your question: yes please" := by
  refine ⟨?_, fun B => rfl,
    fun B hnl hds => deliverText_single_spaced B hnl hds, by decide⟩
  intro pre post c hc hpost hassigned hsess
  have hlast := findNewComment_last task pre post c hc hpost
  have hdeliver : deliverResponseToAgent pm task c.body true true true =
      ([.sendText (getTmuxSession pm task.assignedTo) (deliverText c.body),
        .sleepMs 1000, .sendEnter (getTmuxSession pm task.assignedTo),
        .sleepMs 500, .sendEnter (getTmuxSession pm task.assignedTo)], .ok ()) := by
    simp [deliverResponseToAgent, hassigned, hsess]
  simp [checkTaskForResponse, hlast, hdeliver]

/-- C4 witness: scenario 3 — the exact command sequence delivered to session
`s1` for Alice's reply, whose injected text is the single-spaced
composition. -/
theorem deliverResponse_corrected_witness :
    (checkTaskForResponse c3PM [c3Task] c3Task (.ok [c3BotComment, c3AliceComment])
        true true true 99).2.1 =
      [.sendText (getTmuxSession c3PM "a1") (deliverText "yes please"),
       .sleepMs 1000, .sendEnter (getTmuxSession c3PM "a1"),
       .sleepMs 500, .sendEnter (getTmuxSession c3PM "a1")] ∧
    deliverText "yes please" = "User response to your question: " ++ "yes please" := by
  constructor
  · exact (deliverResponse_corrected c3PM [c3Task] c3Task 99).1
      [c3BotComment] [] c3AliceComment (by decide) (by decide) (by decide) (by decide)
  · exact (deliverResponse_corrected c3PM [c3Task] c3Task 99).2.2.1
      "yes please" (by decide) (by decide)

/-- Modelled from the spec: `Store.ListTasksInProgressWithGitHub` is called
by the poller but its definition is not among the provided sources; the spec
describes it as "list-tasks-in-progress-with-external-source", and a task
has an external source when owner and repo are non-empty and the issue
number is positive (as in the sibling `ListTasksWaitingInput` query). -/
def listTasksInProgressWithGitHub (st : List TaskRecord) : List TaskRecord :=
  st.filter (fun r =>
    r.status = "in_progress" ∧ r.githubOwner ≠ "" ∧ r.githubRepo ≠ "" ∧
    r.githubIssueNumber > 0)

/-- `GitHubPoller.checkTaskForClosedIssue`: on a fetch error the store is
untouched (the poll loop's next tick retries); when the reported state is
`"CLOSED"` the task is marked completed and a completed event is emitted;
any other state changes nothing. -/
def checkTaskForClosedIssue (st : List TaskRecord) (task : TaskRecord)
    (fetchResult : Except String String) (now : Nat) :
    List TaskRecord × List TaskEvent :=
  match fetchResult with
  | .error _ => (st, [])
  | .ok state =>
    if state = "CLOSED" then
      (storeUpdateTaskStatus st task.taskID "completed" now,
       [⟨.taskCompleted, task.taskID, "completed", task.assignedTo⟩])
    else (st, [])

/-- C6: the in-progress check marks the task completed and emits a completed
event exactly when the tracker reports `"CLOSED"`; a tracker error leaves
the store — and hence the task's stored state — unchanged, never marks it
`failed`, and the task still qualifies for the in-progress-with-source query
the next tick re-runs. -/
theorem checkTaskForClosedIssue_claim (st : List TaskRecord) (task : TaskRecord)
    (now : Nat) :
    (∀ e, checkTaskForClosedIssue st task (.error e) now = (st, []) ∧
      (task ∈ listTasksInProgressWithGitHub st →
        task ∈ listTasksInProgressWithGitHub
          (checkTaskForClosedIssue st task (.error e) now).1)) ∧
    (∀ s, s ≠ "CLOSED" → checkTaskForClosedIssue st task (.ok s) now = (st, [])) ∧
    (checkTaskForClosedIssue st task (.ok "CLOSED") now =
      (storeUpdateTaskStatus st task.taskID "completed" now,
       [⟨.taskCompleted, task.taskID, "completed", task.assignedTo⟩]) ∧
     (∀ t, storeGetTask st task.taskID = some t →
       storeGetTask (checkTaskForClosedIssue st task (.ok "CLOSED") now).1 task.taskID =
         some { t with status := "completed", updatedAt := now })) := by
  refine ⟨fun e => ⟨rfl, fun hmem => hmem⟩, fun s hs => ?_, rfl, fun t hfind => ?_⟩
  · simp [checkTaskForClosedIssue, hs]
  · have hread := storeGetTask_map_update st task.taskID
      (fun r => { r with status := "completed", updatedAt := now }) t rfl hfind
    simpa [checkTaskForClosedIssue, storeUpdateTaskStatus] using hread

/-- An in-progress task with an external source (acme/api#42). -/
def c6Task : TaskRecord :=
  { taskID := "t6", description := "d", scopePaths := [], status := "in_progress",
    assignedTo := "a1", result := "", error := "", createdAt := 1, updatedAt := 1,
    githubOwner := "acme", githubRepo := "api", githubIssueNumber := 42,
    lastCommentID := "C2", waitingInputQuestion := "", waitingInputSince := 0 }

/-- C6 witness: a tracker error leaves the store unchanged with the task
still eligible for the next tick; `"OPEN"` changes nothing; `"CLOSED"`
completes the task and emits the completed event. -/
theorem checkTaskForClosedIssue_claim_witness :
    (checkTaskForClosedIssue [c6Task] c6Task (.error "gh issue view failed") 9 =
      ([c6Task], []) ∧
     c6Task ∈ listTasksInProgressWithGitHub
       (checkTaskForClosedIssue [c6Task] c6Task (.error "gh issue view failed") 9).1) ∧
    checkTaskForClosedIssue [c6Task] c6Task (.ok "OPEN") 9 = ([c6Task], []) ∧
    checkTaskForClosedIssue [c6Task] c6Task (.ok "CLOSED") 9 =
      (storeUpdateTaskStatus [c6Task] "t6" "completed" 9,
       [⟨.taskCompleted, "t6", "completed", "a1"⟩]) ∧
    storeGetTask (checkTaskForClosedIssue [c6Task] c6Task (.ok "CLOSED") 9).1 "t6" =
      some { c6Task with status := "completed", updatedAt := 9 } := by
  have h := checkTaskForClosedIssue_claim [c6Task] c6Task 9
  exact ⟨⟨(h.1 "gh issue view failed").1,
          (h.1 "gh issue view failed").2 (by decide)⟩,
         h.2.1 "OPEN" (by decide),
         h.2.2.1,
         h.2.2.2 c6Task (by decide)⟩

/-! ## TaskRouter.ProcessPendingTasks (part_005 lines 97-161)

The loop fetches `pending` tasks (returned newest first) and walks them from
the back — oldest first.  Each iteration asks `FindAvailableAgent` for an
idle slot and, via `executeOnSpawnedAgent`, synchronously assigns the task
(status `accepted`, then `in_progress`) and emits a started event; the
`ExecuteTask` call that toggles the slot busy runs in a separate goroutine
the loop never awaits, so the loop itself leaves every slot's status
untouched.  The embedding covers the loop's own effects (one legal
interleaving: the goroutines run after the loop). -/

/-- The dispatch loop body over the oldest-first pending list: store after
the loop, manager state, started events, and the (task, slot) pairs
dispatched in order. -/
def dispatchLoop (now : Nat) :
    List TaskRecord → List TaskRecord → PMState →
      List TaskRecord × PMState × List TaskEvent × List (TaskRecord × String)
  | [], st, pm => (st, pm, [], [])
  | task :: rest, st, pm =>
    let r := findAvailableAgent pm
    match r.1 with
    | none => (st, r.2.1, [], [])
    | some slot =>
      let st1 := storeAssignTask st task.taskID slot.agentID now
      let st2 := storeUpdateTaskStatus st1 task.taskID "in_progress" now
      let res := dispatchLoop now rest st2 r.2.1
      (res.1, res.2.1,
       ⟨.taskStarted, task.taskID, "in_progress", slot.agentID⟩ :: res.2.2.1,
       (task, slot.agentID) :: res.2.2.2)

/-- `TaskRouter.ProcessPendingTasks`. -/
def processPendingTasks (st : List TaskRecord) (pm : PMState) (now : Nat) :
    List TaskRecord × PMState × List TaskEvent × List (TaskRecord × String) :=
  dispatchLoop now (storeListTasks st "pending" "" 0).reverse st pm

/-- Membership through descending insertion. -/
theorem mem_insertByCreatedDesc (t y : TaskRecord) (l : List TaskRecord) :
    y ∈ insertByCreatedDesc t l ↔ y = t ∨ y ∈ l := by
  induction l with
  | nil => simp [insertByCreatedDesc]
  | cons x xs ih =>
    by_cases hx : x.createdAt < t.createdAt
    · simp [insertByCreatedDesc, hx]
    · simp [insertByCreatedDesc, hx, ih]
      tauto

/-- Descending insertion preserves the sortedness invariant. -/
theorem pairwise_insertByCreatedDesc (t : TaskRecord) (l : List TaskRecord)
    (h : List.Pairwise (fun a b => b.createdAt ≤ a.createdAt) l) :
    List.Pairwise (fun a b => b.createdAt ≤ a.createdAt) (insertByCreatedDesc t l) := by
  induction l with
  | nil => simp [insertByCreatedDesc]
  | cons x xs ih =>
    rw [List.pairwise_cons] at h
    by_cases hx : x.createdAt < t.createdAt
    · simp only [insertByCreatedDesc, if_pos hx]
      rw [List.pairwise_cons]
      constructor
      · intro y hy
        rcases List.mem_cons.mp hy with hy | hy
        · subst hy; omega
        · have := h.1 y hy; omega
      · rw [List.pairwise_cons]
        exact h
    · simp only [insertByCreatedDesc, if_neg hx]
      rw [List.pairwise_cons]
      constructor
      · intro y hy
        rcases (mem_insertByCreatedDesc t y xs).mp hy with hy | hy
        · subst hy; omega
        · exact h.1 y hy
      · exact ih h.2

/-- The sort used by `ListTasks` yields creation time descending. -/
theorem sortByCreatedDesc_pairwise (l : List TaskRecord) :
    List.Pairwise (fun a b => b.createdAt ≤ a.createdAt) (sortByCreatedDesc l) := by
  induction l with
  | nil => simp [sortByCreatedDesc]
  | cons t ts ih => exact pairwise_insertByCreatedDesc t _ ih

/-- The dispatched tasks form a prefix of the oldest-first pending list. -/
theorem dispatchLoop_dispatched_prefix (now : Nat) :
    ∀ (tasks st : List TaskRecord) (pm : PMState),
      ∃ k, ((dispatchLoop now tasks st pm).2.2.2).map Prod.fst = tasks.take k := by
  intro tasks
  induction tasks with
  | nil => intro st pm; exact ⟨0, rfl⟩
  | cons task rest ih =>
    intro st pm
    cases hfa : (findAvailableAgent pm).1 with
    | none =>
      refine ⟨0, ?_⟩
      simp [dispatchLoop, hfa]
    | some slot =>
      obtain ⟨k, hk⟩ := ih
        (storeUpdateTaskStatus (storeAssignTask st task.taskID slot.agentID now)
          task.taskID "in_progress" now)
        (findAvailableAgent pm).2.1
      refine ⟨k + 1, ?_⟩
      simp [dispatchLoop, hfa, hk]

/-- Pending tasks A (oldest), B, C, listed out of order in the store. -/
def c2TaskA : TaskRecord :=
  { taskID := "A", description := "a", scopePaths := [], status := "pending",
    assignedTo := "", result := "", error := "", createdAt := 1, updatedAt := 1,
    githubOwner := "", githubRepo := "", githubIssueNumber := 0,
    lastCommentID := "", waitingInputQuestion := "", waitingInputSince := 0 }

/-- Pending task B (middle). -/
def c2TaskB : TaskRecord := { c2TaskA with taskID := "B", createdAt := 2, updatedAt := 2 }

/-- Pending task C (newest). -/
def c2TaskC : TaskRecord := { c2TaskA with taskID := "C", createdAt := 3, updatedAt := 3 }

/-- Store holding the three pending tasks in scrambled order. -/
def c2Store : List TaskRecord := [c2TaskB, c2TaskC, c2TaskA]

/-- A manager with exactly one idle slot. -/
def c2PM : PMState := ⟨[⟨"a1", "", "sa", "idle", "", "claude"⟩], ""⟩

/-- C2 counterexample: with exactly one idle slot and pending A, B, C, the
loop marks B and C `in_progress` as well — `FindAvailableAgent` does not
mark the chosen slot busy (only the asynchronous `ExecuteTask` does,
transiently), so the same slot is found idle again for B and for C; B and C
do not remain pending. -/
theorem processPendingTasks_claim_counterexample :
    ((processPendingTasks c2Store c2PM 9).1.find? (fun r => r.taskID = "B")).map
      (fun r => r.status) = some "in_progress" ∧
    ((processPendingTasks c2Store c2PM 9).1.find? (fun r => r.taskID = "C")).map
      (fun r => r.status) = some "in_progress" ∧
    "in_progress" ≠ "pending" := by
  decide

/-- C2 (amended): the loop dispatches pending tasks oldest first — the
dispatched sequence is a prefix of the creation-time-ascending pending list,
hence ascending in creation time — and stops only when find-idle reports no
idle slot; but since dispatching does not synchronously occupy the slot, a
single idle slot is found again on every iteration: with pending A, B, C
and one idle slot, all three transition to `in_progress` on that slot, in
the order A, B, C. -/
theorem processPendingTasks_corrected (st : List TaskRecord) (pm : PMState) (now : Nat) :
    (∃ k, ((processPendingTasks st pm now).2.2.2).map Prod.fst =
      ((storeListTasks st "pending" "" 0).reverse).take k) ∧
    List.Pairwise (fun a b => a.createdAt ≤ b.createdAt)
      (((processPendingTasks st pm now).2.2.2).map Prod.fst) ∧
    (((processPendingTasks c2Store c2PM 9).2.2.2).map (fun p => (p.1.taskID, p.2)) =
      [("A", "a1"), ("B", "a1"), ("C", "a1")] ∧
     ((processPendingTasks c2Store c2PM 9).1.find? (fun r => r.taskID = "A")).map
       (fun r => (r.status, r.assignedTo)) = some ("in_progress", "a1")) := by
  obtain ⟨k, hk⟩ := dispatchLoop_dispatched_prefix now
    ((storeListTasks st "pending" "" 0).reverse) st pm
  refine ⟨⟨k, hk⟩, ?_, by decide, by decide⟩
  have hdesc : List.Pairwise (fun a b : TaskRecord => b.createdAt ≤ a.createdAt)
      (storeListTasks st "pending" "" 0) := by
    have := sortByCreatedDesc_pairwise (st.filter (fun r =>
      ("pending" = "" ∨ r.status = "pending") ∧ ("" = "" ∨ r.assignedTo = "")))
    simpa [storeListTasks] using this
  have hasc : List.Pairwise (fun a b : TaskRecord => a.createdAt ≤ b.createdAt)
      ((storeListTasks st "pending" "" 0).reverse) := by
    rw [List.pairwise_reverse]
    exact hdesc
  show List.Pairwise _
    (((dispatchLoop now ((storeListTasks st "pending" "" 0).reverse) st pm).2.2.2).map Prod.fst)
  rw [hk]
  exact hasc.sublist (List.take_sublist k _)

/-! ## Column-level store model (store.go)

The SQLite tasks table is modelled by its column list and rows of
column/value pairs.  `ALTER TABLE ... ADD COLUMN` appends a column without
rewriting rows — a missing key reads back as SQL NULL — and its "duplicate
column" error is ignored by `migrate`.  The `scope_paths` TEXT column holds
`json.Marshal` of the string slice; the encoding is injective and never
inspected otherwise, so the model carries the encoded list itself (`vlist`),
with `vtext` standing for text that is not a well-formed encoding.  Stored
timestamps are `.Unix()` seconds (non-negative here, as the record model
uses `Nat`). -/

/-- A SQLite cell value. -/
inductive SqlValue
  | vnull
  | vtext (s : String)
  | vint (n : Int)
  | vlist (l : List String)
deriving DecidableEq, Repr

/-- A row: column name to value. -/
def SqlRow : Type := List (String × SqlValue)

/-- The tasks table: its columns and rows. -/
structure TasksTable where
  cols : List String
  rows : List SqlRow

/-- The nine columns of the legacy schema (before the GitHub columns). -/
def legacyTaskCols : List String :=
  ["task_id", "description", "scope_paths", "status", "assigned_to", "result",
   "error", "created_at", "updated_at"]

/-- The six columns `migrate` adds. -/
def newTaskCols : List String :=
  ["github_owner", "github_repo", "github_issue_number", "last_comment_id",
   "waiting_input_question", "waiting_input_since"]

/-- Read a cell; a column absent from the row is NULL. -/
def getVal (row : SqlRow) (c : String) : SqlValue :=
  match row.find? (fun p => p.1 = c) with
  | some p => p.2
  | none => .vnull

/-- One `ALTER TABLE tasks ADD COLUMN`; the duplicate-column error is
ignored and existing rows are not rewritten. -/
def addColumn (t : TasksTable) (c : String) : TasksTable :=
  if c ∈ t.cols then t else { t with cols := t.cols ++ [c] }

/-- `Store.migrate`. -/
def migrate (t : TasksTable) : TasksTable :=
  newTaskCols.foldl addColumn t

/-- The row `Store.CreateTask` inserts (`waiting_input_since` is 0 for the
zero time, `.Unix()` otherwise). -/
def taskRow (rec : TaskRecord) : SqlRow :=
  [("task_id", .vtext rec.taskID), ("description", .vtext rec.description),
   ("scope_paths", .vlist rec.scopePaths), ("status", .vtext rec.status),
   ("assigned_to", .vtext rec.assignedTo), ("result", .vtext rec.result),
   ("error", .vtext rec.error), ("created_at", .vint rec.createdAt),
   ("updated_at", .vint rec.updatedAt), ("github_owner", .vtext rec.githubOwner),
   ("github_repo", .vtext rec.githubRepo),
   ("github_issue_number", .vint rec.githubIssueNumber),
   ("last_comment_id", .vtext rec.lastCommentID),
   ("waiting_input_question", .vtext rec.waitingInputQuestion),
   ("waiting_input_since",
    .vint (if rec.waitingInputSince = 0 then 0 else rec.waitingInputSince))]

/-- `Store.CreateTask`: INSERT, failing on a duplicate primary key. -/
def sqlCreateTask (t : TasksTable) (rec : TaskRecord) : Except String TasksTable :=
  if t.rows.any (fun row => getVal row "task_id" = SqlValue.vtext rec.taskID) then
    .error "UNIQUE constraint failed: tasks.task_id"
  else
    .ok { t with rows := t.rows ++ [taskRow rec] }

/-- Scan into a non-null Go `string` destination. -/
def scanText : SqlValue → Except String String
  | .vtext s => .ok s
  | _ => .error "sql: Scan error: not text"

/-- Scan into `sql.NullString` (NULL reads as the empty string). -/
def scanNullString : SqlValue → Except String String
  | .vnull => .ok ""
  | .vtext s => .ok s
  | _ => .error "sql: Scan error: not text"

/-- Scan into a plain `int64` (NULL is an error). -/
def scanInt : SqlValue → Except String Int
  | .vint n => .ok n
  | .vnull => .error "sql: Scan error: converting NULL to int64 is unsupported"
  | _ => .error "sql: Scan error: not an integer"

/-- Scan into `sql.NullInt64` (NULL reads as 0). -/
def scanNullInt : SqlValue → Except String Int
  | .vnull => .ok 0
  | .vint n => .ok n
  | _ => .error "sql: Scan error: not an integer"

/-- Scan the `scope_paths` TEXT then `json.Unmarshal` it, falling back to
the empty slice when the text does not decode. -/
def scanPaths : SqlValue → Except String (List String)
  | .vlist l => .ok l
  | .vtext _ => .ok []
  | _ => .error "sql: Scan error: converting NULL to string is unsupported"

/-- `Store.scanTask` over one row (`sql.ErrNoRows` is handled by the
caller). -/
def scanTask (row : SqlRow) : Except String TaskRecord := do
  let taskID ← scanText (getVal row "task_id")
  let description ← scanText (getVal row "description")
  let paths ← scanPaths (getVal row "scope_paths")
  let status ← scanText (getVal row "status")
  let assignedTo ← scanNullString (getVal row "assigned_to")
  let result ← scanNullString (getVal row "result")
  let errText ← scanNullString (getVal row "error")
  let createdAt ← scanInt (getVal row "created_at")
  let updatedAt ← scanInt (getVal row "updated_at")
  let owner ← scanNullString (getVal row "github_owner")
  let repo ← scanNullString (getVal row "github_repo")
  let issue ← scanNullInt (getVal row "github_issue_number")
  let lastCID ← scanNullString (getVal row "last_comment_id")
  let question ← scanNullString (getVal row "waiting_input_question")
  let since ← scanInt (getVal row "waiting_input_since")
  return { taskID := taskID, description := description, scopePaths := paths,
           status := status, assignedTo := assignedTo, result := result,
           error := errText, createdAt := createdAt.toNat, updatedAt := updatedAt.toNat,
           githubOwner := owner, githubRepo := repo, githubIssueNumber := issue,
           lastCommentID := lastCID, waitingInputQuestion := question,
           waitingInputSince := if 0 < since then since.toNat else 0 }

/-- `Store.GetTask`: the row with the primary key; no row is `nil, nil`
(modelled `.ok none`). -/
def sqlGetTask (t : TasksTable) (id : String) : Except String (Option TaskRecord) :=
  match t.rows.find? (fun row => getVal row "task_id" = SqlValue.vtext id) with
  | none => .ok none
  | some row => (scanTask row).map some

/-- Scanning the row just inserted returns the record unchanged. -/
theorem scanTask_taskRow (rec : TaskRecord) : scanTask (taskRow rec) = .ok rec := by
  by_cases hw : rec.waitingInputSince = 0
  · simp [scanTask, taskRow, getVal, scanText, scanPaths, scanNullString, scanInt,
      scanNullInt, hw]
    rw [← hw]
    rfl
  · have hpos : (0 : Int) < rec.waitingInputSince := by
      omega
    simp [scanTask, taskRow, getVal, scanText, scanPaths, scanNullString, scanInt,
      scanNullInt, hw, hpos]
    rfl

/-- A `find?` skips a block in which nothing matches. -/
theorem find?_append_none {α : Type} (p : α → Bool) (l1 l2 : List α)
    (h : ∀ x ∈ l1, p x = false) : (l1 ++ l2).find? p = l2.find? p := by
  induction l1 with
  | nil => rfl
  | cons x xs ih =>
    have hx := h x (List.mem_cons_self x xs)
    rw [List.cons_append, List.find?_cons_of_neg _ (by simp [hx])]
    exact ih (fun y hy => h y (List.mem_cons_of_mem x hy))

/-- C9: opening a legacy store — tasks table with only the nine original
columns — succeeds: `migrate` appends the six missing columns without
touching a single row; afterwards `CreateTask` then `GetTask` on a fresh id
returns every field of the record unchanged, the GitHub fields and
waiting-input fields included (timestamps are stored as whole Unix
seconds). -/
theorem migration_roundtrip_claim (t : TasksTable) (rec : TaskRecord)
    (hcols : t.cols = legacyTaskCols)
    (hfresh : ∀ row ∈ t.rows, ¬ getVal row "task_id" = SqlValue.vtext rec.taskID) :
    (migrate t).cols = legacyTaskCols ++ newTaskCols ∧
    (migrate t).rows = t.rows ∧
    ∃ t2, sqlCreateTask (migrate t) rec = .ok t2 ∧
      sqlGetTask t2 rec.taskID = .ok (some rec) := by
  obtain ⟨cols, rows⟩ := t
  simp only at hcols hfresh
  subst hcols
  have hmig : migrate ⟨legacyTaskCols, rows⟩ =
      ⟨legacyTaskCols ++ newTaskCols, rows⟩ := rfl
  have hany : (rows.any fun row =>
      getVal row "task_id" = SqlValue.vtext rec.taskID) = false := by
    rw [List.any_eq_false]
    intro row hrow
    simpa using hfresh row hrow
  refine ⟨by rw [hmig], by rw [hmig],
    ⟨⟨legacyTaskCols ++ newTaskCols, rows ++ [taskRow rec]⟩, ?_, ?_⟩⟩
  · rw [hmig]
    simp [sqlCreateTask, hany]
  · have hp : (fun row => decide (getVal row "task_id" = SqlValue.vtext rec.taskID))
        (taskRow rec) = true := by
      simp [getVal, taskRow]
    have hfind1 : List.find?
        (fun row => decide (getVal row "task_id" = SqlValue.vtext rec.taskID))
        [taskRow rec] = some (taskRow rec) := List.find?_cons_of_pos _ hp
    simp only [sqlGetTask]
    rw [find?_append_none _ rows _ (fun row hrow => by simpa using hfresh row hrow),
      hfind1]
    simp [scanTask_taskRow, Except.map]

/-- A legacy row as the migration test inserts it (six of the nine columns
populated, `scope_paths` holding the JSON text `"[]"`). -/
def c9LegacyRow : SqlRow :=
  [("task_id", .vtext "legacy-task"),
   ("description", .vtext "A task from before migration"),
   ("scope_paths", .vtext "[]"), ("status", .vtext "pending"),
   ("created_at", .vint 100), ("updated_at", .vint 100)]

/-- A legacy tasks table: nine columns, one legacy row. -/
def c9Legacy : TasksTable := ⟨legacyTaskCols, [c9LegacyRow]⟩

/-- The record with GitHub metadata the migration test round-trips. -/
def c9NewTask : TaskRecord :=
  { taskID := "new-task", description := "A task with GitHub metadata",
    scopePaths := [], status := "pending", assignedTo := "", result := "",
    error := "", createdAt := 200, updatedAt := 200, githubOwner := "testowner",
    githubRepo := "testrepo", githubIssueNumber := 42, lastCommentID := "",
    waitingInputQuestion := "", waitingInputSince := 0 }

/-- C9 witness: migrating the one-row legacy table adds exactly the six new
columns, keeps the legacy row, and round-trips a task with GitHub
metadata. -/
theorem migration_roundtrip_claim_witness :
    (migrate c9Legacy).cols = legacyTaskCols ++ newTaskCols ∧
    (migrate c9Legacy).rows = [c9LegacyRow] ∧
    ∃ t2, sqlCreateTask (migrate c9Legacy) c9NewTask = .ok t2 ∧
      sqlGetTask t2 "new-task" = .ok (some c9NewTask) := by
  exact migration_roundtrip_claim c9Legacy c9NewTask rfl (by decide)

/-! ## GetTask for a missing id (store.go scanTask, part_005 GetTask,
server.go GetTask)

`Store.scanTask` turns `sql.ErrNoRows` into `nil, nil`; the router passes
the `nil, nil` through; only the RPC facade converts the nil record into a
"task not found" error. -/

/-- Proto task status (mapv1.TaskStatus). -/
inductive TaskStatus
  | unspecified
  | pending
  | offered
  | accepted
  | inProgress
  | waitingInput
  | completed
  | failed
  | cancelled
deriving DecidableEq, Repr

/-- `taskStatusFromString` (part_005 lines 280-301). -/
def taskStatusFromString (s : String) : TaskStatus :=
  match s with
  | "pending" => .pending
  | "offered" => .offered
  | "accepted" => .accepted
  | "in_progress" => .inProgress
  | "completed" => .completed
  | "failed" => .failed
  | "cancelled" => .cancelled
  | "waiting_input" => .waitingInput
  | _ => .unspecified

/-- The proto task the router returns (mapv1.Task, the fields
`taskRecordToProto` fills). -/
structure ProtoTask where
  taskId : String
  description : String
  scopePaths : List String
  status : TaskStatus
  assignedTo : String
  result : String
  error : String
  createdAt : Nat
  updatedAt : Nat
deriving DecidableEq, Repr

/-- `taskRecordToProto` (part_005 lines 240-252). -/
def taskRecordToProto (rec : TaskRecord) : ProtoTask :=
  { taskId := rec.taskID, description := rec.description,
    scopePaths := rec.scopePaths, status := taskStatusFromString rec.status,
    assignedTo := rec.assignedTo, result := rec.result, error := rec.error,
    createdAt := rec.createdAt, updatedAt := rec.updatedAt }

/-- `TaskRouter.GetTask`: a store error propagates, a missing record stays
`nil, nil`. -/
def routerGetTask (t : TasksTable) (id : String) : Except String (Option ProtoTask) :=
  match sqlGetTask t id with
  | .error e => .error e
  | .ok none => .ok none
  | .ok (some rec) => .ok (some (taskRecordToProto rec))

/-- `Server.GetTask`: only here a nil record becomes an error. -/
def serverGetTask (t : TasksTable) (id : String) : Except String ProtoTask :=
  match routerGetTask t id with
  | .error e => .error e
  | .ok none => .error ("task not found: " ++ id)
  | .ok (some task) => .ok task

/-- C10: when no row carries the id, `Store.GetTask` returns `nil, nil`
(no error), `TaskRouter.GetTask` passes the `nil, nil` through, and only
the RPC facade's handler turns the nil record into the "task not found"
error. -/
theorem getTask_absent_claim (t : TasksTable) (id : String)
    (habsent : ∀ row ∈ t.rows, ¬ getVal row "task_id" = SqlValue.vtext id) :
    sqlGetTask t id = .ok none ∧
    routerGetTask t id = .ok none ∧
    serverGetTask t id = .error ("task not found: " ++ id) := by
  have hfind : t.rows.find? (fun row => getVal row "task_id" = SqlValue.vtext id) = none := by
    apply List.find?_eq_none.mpr
    intro row hrow
    simpa using habsent row hrow
  have h1 : sqlGetTask t id = .ok none := by
    simp [sqlGetTask, hfind]
  refine ⟨h1, ?_, ?_⟩
  · simp [routerGetTask, h1]
  · simp [serverGetTask, routerGetTask, h1]

/-- C10 witness: the id `"missing"` against the one-row legacy table. -/
theorem getTask_absent_claim_witness :
    sqlGetTask c9Legacy "missing" = .ok none ∧
    routerGetTask c9Legacy "missing" = .ok none ∧
    serverGetTask c9Legacy "missing" = .error ("task not found: " ++ "missing") := by
  exact getTask_absent_claim c9Legacy "missing" (by decide)

end Mapcli
